import Mathlib

/-!
Verification of the simulation core of the mobx-clicker-game-engine
repository: the resource ledger (ResourcesStore), the operation scheduler
(OperationsStore), the persistence coordinator (SyncStore) and the offline
reconciliation contract.

Shallow embedding conventions:
* JavaScript numbers are modelled as rationals (ℚ); the code only ever
  produces exact decimal/integer values at the points the claims touch.
* zod schema `.parse` calls are modelled as `Except Err` checks; a zod
  throw is an `Err.validation` error.
* MobX stores are mutable objects; a thrown exception aborts the caller
  but keeps the mutations already applied.  Every operation therefore
  returns `Except (Err × State) ...` where an error carries the state at
  the moment of the throw.
* Side effects on sub-stores that no claim mentions (achievements totals,
  codex article unlocks, toast notifications, wall-clock timers) are
  outside the modelled state.
-/

namespace ClickerGame

/-- The four resource keys of `RESOURCES` in `shared.ts`. -/
inductive Resource
  | energy
  | output
  | reputation
  | money
deriving DecidableEq, Repr

/-- The four counters of `ResourcesStore` (`energy`, `output`,
`reputation`, `money`). -/
structure Resources where
  energy : ℚ
  output : ℚ
  reputation : ℚ
  money : ℚ
deriving DecidableEq, Repr

/-- Field access `this[resource]`. -/
def Resources.get (rs : Resources) : Resource → ℚ
  | .energy => rs.energy
  | .output => rs.output
  | .reputation => rs.reputation
  | .money => rs.money

/-- Field assignment `this[resource] = v`. -/
def Resources.set (rs : Resources) : Resource → ℚ → Resources
  | .energy, v => { rs with energy := v }
  | .output, v => { rs with output := v }
  | .reputation, v => { rs with reputation := v }
  | .money, v => { rs with money := v }

theorem Resources.get_set_same (rs : Resources) (r : Resource) (v : ℚ) :
    (rs.set r v).get r = v := by
  cases r <;> rfl

theorem Resources.get_set_ne (rs : Resources) (r r' : Resource) (v : ℚ)
    (h : r' ≠ r) : (rs.set r v).get r' = rs.get r' := by
  cases r <;> cases r' <;> first | rfl | exact absurd rfl h

/-- Errors the modelled operations can raise.  Constructors correspond to
the distinct thrown `Error`s / zod validation failures of the source. -/
inductive Err
  | validation
  | onCooldown (remainingSeconds : ℤ)
  | insufficientResources (id : String)
  | couldNotBeClaimed (id : String)
  | notYetClaimable (id : String)
  | alreadyClaimed (id : String)
  | loadWhileDirty
  | notIdle
deriving DecidableEq, Repr

/-- `q` is a non-negative integer value (what `nonNegativeIntegerSchema`
accepts). -/
abbrev IsNNInt (q : ℚ) : Prop := 0 ≤ q ∧ q.den = 1

/-- `nonNegativeIntegerSchema.parse` from `shared.ts`: returns the value
unchanged, or throws a validation error. -/
def nonNegativeIntegerParse (q : ℚ) : Except Err ℚ :=
  if 0 ≤ q ∧ q.den = 1 then .ok q else .error .validation

/-- `nonNegativeNumberSchema.parse` from `shared.ts`. -/
def nonNegativeNumberParse (q : ℚ) : Except Err ℚ :=
  if 0 ≤ q then .ok q else .error .validation

/-- The nine effect keys of `gainMultipliers` in `shared.ts`. -/
inductive GainKey
  | energyGain
  | outputGain
  | operationCostReduction
  | reputationGain
  | moneyGain
  | workersEfficiency
  | operationDurationReduction
  | offlineEfficiency
  | workerCostReduction
deriving DecidableEq, Repr

/-- The five rarity tiers of `RARITY` in `shared.ts`. -/
inductive Rarity
  | common
  | uncommon
  | rare
  | epic
  | legendary
deriving DecidableEq, Repr

/-- `ConfigStore.operationScaleFactor`. -/
def configOperationScaleFactor : Rarity → ℚ
  | .common => 12 / 10
  | .uncommon => 14 / 10
  | .rare => 16 / 10
  | .epic => 18 / 10
  | .legendary => 2

/-- `ConfigStore.maxOfflineTime` (milliseconds). -/
def configMaxOfflineTime : ℚ := 8 * 60 * 60 * 1000

/-- `ConfigStore.offlineMultiplier`. -/
def configOfflineMultiplier : ℚ := 5 / 10

/-- `ConfigStore.gameRoundInterval` (milliseconds). -/
def configGameRoundInterval : ℚ := 1000

/-- A bonus as validated by `bonusSchema` in `shared.ts`: either a
multiplier on a gain key or a flat gain.  The optional `id` of
multiplier bonuses is irrelevant to every claim and omitted. -/
inductive Bonus
  | multiplierBonus (target : GainKey) (value : ℚ) (duration : Option ℚ)
  | flatBonus (value : ℚ) (duration : Option ℚ)
deriving DecidableEq, Repr

/-- `{bonus, expiresAt}` of `activeBonusSchema`. -/
structure ActiveBonus where
  bonus : Bonus
  expiresAt : ℚ
deriving DecidableEq, Repr

/-- One entry of `operationsProgress`: `{claimableAt, cooldownTill}`
(epoch milliseconds, 0 meaning not set). -/
structure Progress where
  claimableAt : ℚ
  cooldownTill : ℚ
deriving DecidableEq, Repr

/-- The derived operation phase. -/
inductive Phase
  | idle
  | inProgress
  | claimable
  | cooldown
deriving DecidableEq, Repr

/-- The eight sub-store names of `STORES_TO_SYNC` in `shared.ts`. -/
inductive StoreName
  | resources
  | workers
  | operations
  | codex
  | level
  | achievements
  | upgrades
  | prestige
deriving DecidableEq, Repr

def STORES_TO_SYNC : List StoreName :=
  [.resources, .workers, .operations, .codex, .level, .achievements,
   .upgrades, .prestige]

/-- `SyncStore.state`. -/
inductive SyncPhase
  | idle
  | saving
  | loading
  | error
deriving DecidableEq, Repr

/-- The modelled mutable state: the `ResourcesStore` counters, the
`OperationsStore` per-operation data, and the `SyncStore` gate.  Record
maps (`operationsFinished`, `operationsProgress`) are modelled as total
functions with the source's read defaults (`?? 0`, `undefined`). -/
structure State where
  resources : Resources
  operationsFinished : String → ℕ
  operationsProgress : String → Option Progress
  activeBonuses : List ActiveBonus
  syncPhase : SyncPhase
  dirty : StoreName → Bool
  lastSave : ℚ

/-- The zeroed state the stores are constructed with. -/
def initialState : State where
  resources := ⟨0, 0, 0, 0⟩
  operationsFinished := fun _ => 0
  operationsProgress := fun _ => none
  activeBonuses := []
  syncPhase := .idle
  dirty := fun _ => false
  lastSave := 0

/-- `SyncStore.markDirty`. -/
def markDirty (s : State) (n : StoreName) : State :=
  { s with dirty := fun m => if m = n then true else s.dirty m }

/-- `SyncStore.isDirty` (`dirty.size > 0`). -/
def isDirty (s : State) : Bool := STORES_TO_SYNC.any s.dirty

/-- `ResourcesStore.addResource`.  The call to
`achievements.addResourceTotals` mutates only the (unmodelled)
achievements store. -/
def addResource (s : State) (r : Resource) (amount : ℚ) :
    Except (Err × State) State :=
  match nonNegativeIntegerParse amount with
  | .error e => .error (e, s)
  | .ok a =>
      .ok (markDirty
        { s with resources := s.resources.set r (s.resources.get r + a) }
        .resources)

/-- `ResourcesStore.spendResource`. -/
def spendResource (s : State) (r : Resource) (amount : ℚ) :
    Except (Err × State) (Bool × State) :=
  if amount ≤ s.resources.get r then
    match nonNegativeIntegerParse amount with
    | .error e => .error (e, s)
    | .ok a =>
        .ok (true, markDirty
          { s with resources := s.resources.set r (s.resources.get r - a) }
          .resources)
  else
    .ok (false, s)

/-- A cost map (`Partial<Resources>` validated by `costSchema`). -/
structure Cost where
  energy : Option ℚ
  output : Option ℚ
  reputation : Option ℚ
  money : Option ℚ
deriving DecidableEq, Repr

/-- Lookup of one resource in a cost map. -/
def Cost.get (c : Cost) : Resource → Option ℚ
  | .energy => c.energy
  | .output => c.output
  | .reputation => c.reputation
  | .money => c.money

/-- `Object.entries(cost)` in the cost object's field order. -/
def costEntries (c : Cost) : List (Resource × ℚ) :=
  (match c.energy with | some v => [(Resource.energy, v)] | none => []) ++
  (match c.output with | some v => [(Resource.output, v)] | none => []) ++
  (match c.reputation with | some v => [(Resource.reputation, v)] | none => []) ++
  (match c.money with | some v => [(Resource.money, v)] | none => [])

/-- The pre-computed `required` map of `spendResourcesByCost`:
`Math.ceil(v * multiplier)` per cost entry. -/
def requiredEntries (c : Cost) (multiplier : ℚ) : List (Resource × ℚ) :=
  (costEntries c).map (fun ra => (ra.1, ((⌈ra.2 * multiplier⌉ : ℤ) : ℚ)))

/-- The deduction loop of `spendResourcesByCost`
(`this[resource] -= nonNegativeIntegerSchema.parse(amount)`). -/
def deductAll (s : State) : List (Resource × ℚ) → Except (Err × State) State
  | [] => .ok s
  | (r, a) :: rest =>
      match nonNegativeIntegerParse a with
      | .error e => .error (e, s)
      | .ok a' =>
          deductAll
            { s with resources := s.resources.set r (s.resources.get r - a') }
            rest

/-- `ResourcesStore.spendResourcesByCost`. -/
def spendResourcesByCost (s : State) (c : Cost) (multiplier : ℚ) :
    Except (Err × State) (Bool × State) :=
  let required := requiredEntries c multiplier
  -- Abort early if any resource is insufficient
  if required.all (fun ra => !(s.resources.get ra.1 < ra.2 : Bool)) then
    -- Deduct after validation
    match deductAll s required with
    | .error e => .error e
    | .ok s' => .ok (true, markDirty s' .resources)
  else
    .ok (false, s)

/-- `OperationsStore.multipliers`: the per-key factor contributed by the
active bonuses, starting from identity 1.0 with multiplicative stacking. -/
def bonusesMultiplier (bonuses : List ActiveBonus) (key : GainKey) : ℚ :=
  bonuses.foldl
    (fun acc ab =>
      match ab.bonus with
      | .multiplierBonus target value _ =>
          if target = key then acc * value else acc
      | .flatBonus _ _ => acc)
    1

/-- The multiplier maps of the achievements, upgrades and prestige stores
(whose internals no claim touches), plus the configuration table.  They
are inputs to the modelled operations. -/
structure Env where
  achMultipliers : GainKey → ℚ
  upgMultipliers : GainKey → ℚ
  prestigeMultipliers : GainKey → ℚ
  operationScaleFactor : Rarity → ℚ

/-- `ResourcesStore.getMultipliers`: the product of the four sources'
factors, validated non-negative. -/
def getMultipliers (env : Env) (s : State) (key : GainKey) : Except Err ℚ :=
  nonNegativeNumberParse
    (env.achMultipliers key * env.upgMultipliers key
      * env.prestigeMultipliers key * bonusesMultiplier s.activeBonuses key)

/-- The reward bundle validated by `rewardsSchema`. -/
structure Rewards where
  reputation : ℚ
  output : Option ℚ
  money : Option ℚ
  bonus : Option Bonus
deriving DecidableEq, Repr

/-- An operation definition as validated by `operationSchema`.  The
`description`, `requirements` and `articlesUnlocks` fields feed only the
availability view and the (unmodelled) codex and are omitted. -/
structure Operation where
  id : String
  name : String
  rarity : Rarity
  duration : ℚ
  cooldown : ℚ
  cost : Cost
  rewards : Rewards
deriving DecidableEq, Repr

/-- The `costSchema` refinement: at least one of energy/money/output is
present and non-zero (JavaScript truthiness of `data.energy || data.money
|| data.output`). -/
def CostRefine (c : Cost) : Prop :=
  (∃ v, c.energy = some v ∧ v ≠ 0) ∨ (∃ v, c.money = some v ∧ v ≠ 0) ∨
    (∃ v, c.output = some v ∧ v ≠ 0)

/-- What `bonusSchema` guarantees about a parsed bonus. -/
def BonusWF : Bonus → Prop
  | .multiplierBonus _ value duration =>
      0 ≤ value ∧ ∀ d, duration = some d → IsNNInt d
  | .flatBonus value duration =>
      IsNNInt value ∧ ∀ d, duration = some d → IsNNInt d

/-- What `operationSchema` guarantees about an operation definition. -/
def OperationWF (op : Operation) : Prop :=
  IsNNInt op.duration ∧ IsNNInt op.cooldown ∧
  (∀ r v, op.cost.get r = some v → IsNNInt v) ∧ CostRefine op.cost ∧
  IsNNInt op.rewards.reputation ∧
  (∀ v, op.rewards.output = some v → IsNNInt v) ∧
  (∀ v, op.rewards.money = some v → IsNNInt v) ∧
  (∀ b, op.rewards.bonus = some b → BonusWF b)

/-- `OperationsStore.getOperationPhase`: the pure phase derivation from a
progress entry and the current time. -/
def getOperationPhase : Option Progress → ℚ → Phase
  | none, _ => .idle
  | some p, now =>
      if 0 < p.claimableAt then
        if now < p.claimableAt then .inProgress else .claimable
      else if now < p.cooldownTill then .cooldown else .idle

/-- Sequencing of two statements where the first may throw: the thrown
error (with the state at the throw) aborts the rest. -/
def bindE {β : Type} (f : Except (Err × State) State)
    (g : State → Except (Err × State) β) : Except (Err × State) β :=
  match f with
  | .error e => .error e
  | .ok x => g x

/-- Sequencing after a call that returns a boolean (and may throw). -/
def bindB {β : Type} (f : Except (Err × State) (Bool × State))
    (g : Bool → State → Except (Err × State) β) :
    Except (Err × State) β :=
  match f with
  | .error e => .error e
  | .ok x => g x.1 x.2

/-- Sequencing after a validated read (`getMultipliers`): a zod throw at
state `s` aborts with `s` unchanged. -/
def bindM {β : Type} (f : Except Err ℚ) (s : State)
    (g : ℚ → Except (Err × State) β) : Except (Err × State) β :=
  match f with
  | .error e => .error (e, s)
  | .ok q => g q

theorem bindE_eq_ok {β : Type} {f : Except (Err × State) State}
    {g : State → Except (Err × State) β} {t : β} :
    bindE f g = .ok t ↔ ∃ x, f = .ok x ∧ g x = .ok t := by
  unfold bindE
  cases f <;> simp

theorem bindE_eq_error {β : Type} {f : Except (Err × State) State}
    {g : State → Except (Err × State) β} {p : Err × State} :
    bindE f g = .error p ↔
      f = .error p ∨ ∃ x, f = .ok x ∧ g x = .error p := by
  unfold bindE
  cases f <;> simp

theorem bindB_eq_ok {β : Type} {f : Except (Err × State) (Bool × State)}
    {g : Bool → State → Except (Err × State) β} {t : β} :
    bindB f g = .ok t ↔ ∃ b x, f = .ok (b, x) ∧ g b x = .ok t := by
  unfold bindB
  cases f with
  | error e => simp
  | ok p =>
      obtain ⟨b, x⟩ := p
      cases b <;> simp

theorem bindB_eq_error {β : Type} {f : Except (Err × State) (Bool × State)}
    {g : Bool → State → Except (Err × State) β} {p : Err × State} :
    bindB f g = .error p ↔
      f = .error p ∨ ∃ b x, f = .ok (b, x) ∧ g b x = .error p := by
  unfold bindB
  cases f with
  | error e => simp
  | ok q =>
      obtain ⟨b, x⟩ := q
      cases b <;> simp

theorem bindM_eq_ok {β : Type} {f : Except Err ℚ} {s : State}
    {g : ℚ → Except (Err × State) β} {t : β} :
    bindM f s g = .ok t ↔ ∃ q, f = .ok q ∧ g q = .ok t := by
  unfold bindM
  cases f <;> simp

theorem bindM_eq_error {β : Type} {f : Except Err ℚ} {s : State}
    {g : ℚ → Except (Err × State) β} {p : Err × State} :
    bindM f s g = .error p ↔
      (∃ e, f = .error e ∧ p = (e, s)) ∨
        ∃ q, f = .ok q ∧ g q = .error p := by
  unfold bindM
  cases f <;> simp [eq_comm]

/-- The `operationsFinished` increment at the start of a successful
claim. -/
def incrementFinished (s : State) (op : Operation) : State :=
  { s with operationsFinished := fun i =>
      if i = op.id then s.operationsFinished op.id + 1
      else s.operationsFinished i }

/-- "Add reputation amount" of `claimOperation`. -/
def addReputationReward (env : Env) (s : State) (op : Operation) :
    Except (Err × State) State :=
  match getMultipliers env s .reputationGain with
  | .error e => .error (e, s)
  | .ok repMult =>
      addResource s .reputation ((⌈op.rewards.reputation * repMult⌉ : ℤ) : ℚ)

/-- "Add output if specified" of `claimOperation` (JavaScript truthiness:
a 0 reward is skipped). -/
def addOutputReward (env : Env) (s : State) (op : Operation) :
    Except (Err × State) State :=
  match op.rewards.output with
  | some v =>
      if v ≠ 0 then
        match getMultipliers env s .outputGain with
        | .error e => .error (e, s)
        | .ok outMult => addResource s .output ((⌈v * outMult⌉ : ℤ) : ℚ)
      else .ok s
  | none => .ok s

/-- "Add money if specified" of `claimOperation`. -/
def addMoneyReward (env : Env) (s : State) (op : Operation) :
    Except (Err × State) State :=
  match op.rewards.money with
  | some v =>
      if v ≠ 0 then
        match getMultipliers env s .moneyGain with
        | .error e => .error (e, s)
        | .ok monMult => addResource s .money ((⌈v * monMult⌉ : ℤ) : ℚ)
      else .ok s
  | none => .ok s

/-- "Apply bonus effects if specified" of `claimOperation`: only
multiplier bonuses with a (truthy) duration are pushed. -/
def pushBonusReward (s : State) (op : Operation) (now : ℚ) : State :=
  match op.rewards.bonus with
  | some (.multiplierBonus target value (some d)) =>
      if d ≠ 0 then
        { s with activeBonuses := s.activeBonuses ++
          [(⟨.multiplierBonus target value (some d), now + d * 1000⟩ :
            ActiveBonus)] }
      else s
  | _ => s

/-- The progress rewrite at the end of a successful claim: `claimableAt`
cleared to 0, `cooldownTill` retained. -/
def clearClaimable (s : State) (op : Operation) (progressEntry : Progress) :
    State :=
  { s with operationsProgress := fun i =>
      if i = op.id then some { progressEntry with claimableAt := 0 }
      else s.operationsProgress i }

/-- `OperationsStore.claimOperation`.  The codex article unlocks, the
achievements notification and the timer reschedule touch only unmodelled
state. -/
def claimOperation (env : Env) (s : State) (op : Operation) (now : ℚ) :
    Except (Err × State) State :=
  match s.operationsProgress op.id with
  | none => .error (.couldNotBeClaimed op.id, s)
  | some progressEntry =>
    -- `if (!progressEntry?.claimableAt)`
    if progressEntry.claimableAt = 0 then
      .error (.couldNotBeClaimed op.id, s)
    else
      match getOperationPhase (some progressEntry) now with
      | .inProgress => .error (.notYetClaimable op.id, s)
      | .cooldown => .error (.alreadyClaimed op.id, s)
      | .idle => .error (.alreadyClaimed op.id, s)
      | .claimable =>
        bindE (addReputationReward env (incrementFinished s op) op) (fun s2 =>
        bindE (addOutputReward env s2 op) (fun s3 =>
        bindE (addMoneyReward env s3 op) (fun s4 =>
        .ok (markDirty
          (clearClaimable (pushBonusReward s4 op now) op progressEntry)
          .operations))))

/-- `this.operationsProgress[operation.id]?.cooldownTill ?? 0`. -/
def progressCooldownTill (s : State) (oid : String) : ℚ :=
  match s.operationsProgress oid with
  | some p => p.cooldownTill
  | none => 0

/-- The final cost multiplier of `conductOperation`: rarity scaling
times the inverted (epsilon-floored) cost-reduction multiplier. -/
def finalCostMultiplier (env : Env) (op : Operation) (costRed : ℚ) : ℚ :=
  env.operationScaleFactor op.rarity * (1 / max costRed (1 / 1000))

/-- The computed duration of `conductOperation`: base duration times the
inverted (epsilon-floored) duration-reduction multiplier (seconds). -/
def finalDuration (op : Operation) (durRed : ℚ) : ℚ :=
  op.duration * (1 / max durRed (1 / 1000))

/-- The progress entry written by `conductOperation`:
`claimableAt = now + duration·1000`,
`cooldownTill = now + (duration + op.cooldown)·1000`. -/
def conductProgress (s' : State) (op : Operation) (now duration : ℚ) :
    State :=
  markDirty
    { s' with operationsProgress := fun i =>
        if i = op.id then
          some (⟨now + duration * 1000,
                 now + (duration + op.cooldown) * 1000⟩ : Progress)
        else s'.operationsProgress i }
    .operations

/-- `OperationsStore.conductOperation`.  Returns the computed duration
(for the caller's animation). -/
def conductOperation (env : Env) (s : State) (op : Operation) (now : ℚ) :
    Except (Err × State) (ℚ × State) :=
  -- if the operation is still in cooldown, throw error
  if now < progressCooldownTill s op.id then
    .error (.onCooldown ⌈(progressCooldownTill s op.id - now) / 1000⌉, s)
  else
    bindM (getMultipliers env s .operationCostReduction) s (fun costRed =>
      bindB (spendResourcesByCost s op.cost
          (finalCostMultiplier env op costRed)) (fun spent s' =>
        if spent then
          bindM (getMultipliers env s' .operationDurationReduction) s'
            (fun durRed =>
            if finalDuration op durRed = 0 then
              -- if the duration is 0, claim the operation immediately
              bindE
                (claimOperation env
                  (conductProgress s' op now (finalDuration op durRed)) op now)
                (fun s3 => .ok (0, s3))
            else
              .ok (finalDuration op durRed,
                conductProgress s' op now (finalDuration op durRed)))
        else
          .error (.insufficientResources op.id, s')))

/-- `OperationsStore.expireBonuses`. -/
def expireBonuses (s : State) (now : ℚ) : State :=
  let kept := s.activeBonuses.filter (fun ab => now < ab.expiresAt)
  if kept.length ≠ s.activeBonuses.length then
    markDirty { s with activeBonuses := kept } .operations
  else
    { s with activeBonuses := kept }

/-- `operationsSnapshotSchema`: the serialized `OperationsStore` state. -/
structure OperationsSnapshot where
  operationsFinished : String → ℕ
  operationsProgress : String → Option Progress
  activeBonuses : List ActiveBonus

/-- The modelled part of `gameSaveSchema`'s aggregate.  The snapshots of
the six sub-stores no claim constrains (workers, codex, level,
achievements, upgrades, prestige) are plain copies of validated data and
are omitted from the model. -/
structure GameSaveSnapshot where
  version : String
  timestamp : ℚ
  resources : Resources
  operations : OperationsSnapshot

/-- `ResourcesStore.getSnapshot`. -/
def resourcesGetSnapshot (s : State) : Resources := s.resources

/-- `OperationsStore.getSnapshot`. -/
def operationsGetSnapshot (s : State) : OperationsSnapshot :=
  ⟨s.operationsFinished, s.operationsProgress, s.activeBonuses⟩

/-- `SyncStore.getSnapshot`. -/
def syncGetSnapshot (s : State) (timestamp : ℚ) : GameSaveSnapshot :=
  { version := ("0.0.0")
    timestamp := timestamp
    resources := resourcesGetSnapshot s
    operations := operationsGetSnapshot s }

/-- What `resourcesSchema` checks: all four counters are non-negative
integers. -/
abbrev ResourcesWF (rs : Resources) : Prop :=
  IsNNInt rs.energy ∧ IsNNInt rs.output ∧ IsNNInt rs.reputation ∧
    IsNNInt rs.money

/-- Decidable form of `BonusWF` (the `bonusSchema` value checks). -/
def bonusWFb : Bonus → Bool
  | .multiplierBonus _ value duration =>
      decide (0 ≤ value) &&
        (match duration with
         | some d => decide (IsNNInt d)
         | none => true)
  | .flatBonus value duration =>
      decide (IsNNInt value) &&
        (match duration with
         | some d => decide (IsNNInt d)
         | none => true)

theorem bonusWFb_eq_true {b : Bonus} (h : BonusWF b) : bonusWFb b = true := by
  cases b with
  | multiplierBonus t v d =>
      obtain ⟨h1, h2⟩ := h
      cases d with
      | none => simp [bonusWFb, h1]
      | some d' => simp [bonusWFb, h1, h2 d' rfl]
  | flatBonus v d =>
      obtain ⟨h1, h2⟩ := h
      cases d with
      | none => simp [bonusWFb, h1]
      | some d' => simp [bonusWFb, h1, h2 d' rfl]

/-- `ResourcesStore.loadSnapshot`: re-validates the resource counters
with `resourcesSchema.parse`, then copies them. -/
def resourcesLoadSnapshot (s : State) (snapshot : GameSaveSnapshot) :
    Except (Err × State) State :=
  if ResourcesWF snapshot.resources then
    .ok { s with resources := snapshot.resources }
  else
    .error (.validation, s)

/-- `OperationsStore.loadSnapshot`: re-validates with
`operationsSnapshotSchema.parse` (completion counters are non-negative
integers by the ℕ representation; progress timestamps are unconstrained
`z.number()`s; bonuses must satisfy `bonusSchema`), then assigns the
three fields.  The timer resume touches only unmodelled state. -/
def operationsLoadSnapshot (s : State) (snapshot : GameSaveSnapshot) :
    Except (Err × State) State :=
  if snapshot.operations.activeBonuses.all (fun ab => bonusWFb ab.bonus) then
    .ok { s with
      operationsFinished := snapshot.operations.operationsFinished
      operationsProgress := snapshot.operations.operationsProgress
      activeBonuses := snapshot.operations.activeBonuses }
  else
    .error (.validation, s)

/-- `SyncStore.loadSnapshot`: rejected while dirty, otherwise dispatches
to every participating sub-store's loader in `STORES_TO_SYNC` order
(resources first, operations third; the six unmodelled loaders copy
validated data and cannot fail on a schema-valid snapshot). -/
def syncLoadSnapshot (s : State) (snapshot : GameSaveSnapshot) :
    Except (Err × State) State :=
  if isDirty s then
    .error (.loadWhileDirty, s)
  else
    match resourcesLoadSnapshot s snapshot with
    | .error e => .error e
    | .ok s1 => operationsLoadSnapshot s1 snapshot

/-- The raw contents of the durable storage key: either a string that
fails `JSON.parse`/`gameSaveSchema.parse`, or a well-formed save. -/
inductive RawSave
  | invalid
  | valid (snapshot : GameSaveSnapshot)

/-- Decidable form of the `gameSaveSchema` checks on the modelled
fields. -/
def gameSaveWFb (snapshot : GameSaveSnapshot) : Bool :=
  decide (ResourcesWF snapshot.resources) &&
    snapshot.operations.activeBonuses.all (fun ab => bonusWFb ab.bonus)

/-- `gameSaveSchema.parse(JSON.parse(data))`. -/
def gameSaveParse : RawSave → Except Err GameSaveSnapshot
  | .invalid => .error .validation
  | .valid snapshot =>
      if gameSaveWFb snapshot then .ok snapshot else .error .validation

/-- The in-memory state together with the durable storage slot
(`localStorage[SAVE_KEY]`). -/
structure World where
  state : State
  storage : Option RawSave

/-- The `try`/`catch`/`finally` body of `SyncStore.load` with the gate
already set to loading: read the raw storage, parse, dispatch to the
sub-store loaders; every failure is caught (and logged), and the
`finally` returns the gate to idle. -/
def loadAttempt (w : World) :
    Option RawSave → Except (Err × World) (Option ℚ × World)
  | none =>
      .ok (none, { w with state :=
        { { w.state with syncPhase := .loading } with syncPhase := .idle } })
  | some raw =>
    match gameSaveParse raw with
    | .error _ =>
        -- caught: "Failed to load save data" is logged
        .ok (none, { w with state :=
          { { w.state with syncPhase := .loading } with
            syncPhase := .idle } })
    | .ok snapshot =>
      match syncLoadSnapshot { w.state with syncPhase := .loading }
          snapshot with
      | .error (_, s') =>
          .ok (none, { w with state := { s' with syncPhase := .idle } })
      | .ok s' =>
          .ok (some snapshot.timestamp,
               { w with state := { s' with syncPhase := .idle } })

/-- `SyncStore.load`: the not-idle guard throw propagates to the caller;
on success the snapshot's timestamp is returned for offline-progress
computation. -/
def syncLoad (w : World) : Except (Err × World) (Option ℚ × World) :=
  if w.state.syncPhase ≠ .idle then
    .error (.notIdle, w)
  else
    loadAttempt w w.storage

/-- Modelled from the spec: the offline reconciliation routine is not
present under `src/` (only the `maxOfflineTime` and `offlineMultiplier`
constants of `ConfigStore` are); spec §4.4 defines it as
`elapsed = min(now - snapshot.timestamp, maxOfflineDuration)` with only
the steady per-round production rates for energy, output and money
applied at the fixed offline-efficiency factor, while operations in
flight, cooldowns and active bonuses are not advanced. -/
def applyOfflineProgress (s : State) (now savedTimestamp : ℚ)
    (energyRate outputRate moneyRate : ℚ) : State :=
  let elapsed := min (now - savedTimestamp) configMaxOfflineTime
  let elapsedRounds := elapsed / configGameRoundInterval
  { s with resources :=
    { s.resources with
      energy := s.resources.energy
        + energyRate * elapsedRounds * configOfflineMultiplier
      output := s.resources.output
        + outputRate * elapsedRounds * configOfflineMultiplier
      money := s.resources.money
        + moneyRate * elapsedRounds * configOfflineMultiplier } }

/-- One call of a Resource Ledger sequence (claim C1). -/
inductive LedgerCall
  | add (r : Resource) (amount : ℚ)
  | spend (r : Resource) (amount : ℚ)

/-- The state after an `addResource` call, whether it succeeds or throws
(a throw keeps the mutations applied so far — here none). -/
def addResourceState (s : State) (r : Resource) (amount : ℚ) : State :=
  match addResource s r amount with
  | .ok s' => s'
  | .error e => e.2

/-- The state after a `spendResource` call. -/
def spendResourceState (s : State) (r : Resource) (amount : ℚ) : State :=
  match spendResource s r amount with
  | .ok p => p.2
  | .error e => e.2

/-- The state after a `spendResourcesByCost` call. -/
def spendResourcesByCostState (s : State) (c : Cost) (multiplier : ℚ) :
    State :=
  match spendResourcesByCost s c multiplier with
  | .ok p => p.2
  | .error e => e.2

/-- The state after a `conductOperation` call. -/
def conductOperationState (env : Env) (s : State) (op : Operation)
    (now : ℚ) : State :=
  match conductOperation env s op now with
  | .ok p => p.2
  | .error e => e.2

/-- The state after a `claimOperation` call. -/
def claimOperationState (env : Env) (s : State) (op : Operation)
    (now : ℚ) : State :=
  match claimOperation env s op now with
  | .ok s' => s'
  | .error e => e.2

/-- Apply one ledger call (claim C1's call sequences). -/
def applyLedgerCall (s : State) : LedgerCall → State
  | .add r amount => addResourceState s r amount
  | .spend r amount => spendResourceState s r amount

/-- Run a finite sequence of ledger calls from a state. -/
def runLedgerCalls (s : State) (calls : List LedgerCall) : State :=
  calls.foldl applyLedgerCall s

/-- `SyncStore.save`'s effect on the modelled state when it proceeds:
dirty flags cleared and the save timestamp recorded (the serialized
snapshot goes to storage; the in-memory game state is untouched). -/
def saveStateEffect (s : State) (now : ℚ) : State :=
  { s with dirty := fun _ => false, lastSave := now }

/-! ### Basic lemmas about validated values and the ledger primitives -/

theorem isNNInt_iff {q : ℚ} : IsNNInt q ↔ ∃ z : ℤ, 0 ≤ z ∧ q = (z : ℚ) := by
  constructor
  · rintro ⟨h0, hden⟩
    refine ⟨q.num, Rat.num_nonneg.mpr h0, ?_⟩
    rw [← Rat.num_div_den q, hden]
    simp
  · rintro ⟨z, hz, rfl⟩
    exact ⟨by exact_mod_cast hz, Rat.den_intCast z⟩

theorem IsNNInt.zero : IsNNInt 0 := ⟨le_refl 0, rfl⟩

theorem IsNNInt.add {a b : ℚ} (ha : IsNNInt a) (hb : IsNNInt b) :
    IsNNInt (a + b) := by
  rw [isNNInt_iff] at *
  obtain ⟨x, hx, rfl⟩ := ha
  obtain ⟨y, hy, rfl⟩ := hb
  exact ⟨x + y, by omega, by push_cast; ring⟩

theorem IsNNInt.sub {a b : ℚ} (ha : IsNNInt a) (hb : IsNNInt b)
    (h : b ≤ a) : IsNNInt (a - b) := by
  rw [isNNInt_iff] at *
  obtain ⟨x, hx, rfl⟩ := ha
  obtain ⟨y, hy, rfl⟩ := hb
  have hyx : y ≤ x := by exact_mod_cast h
  exact ⟨x - y, by omega, by push_cast; ring⟩

theorem IsNNInt.ceil {x : ℚ} (h : 0 ≤ x) : IsNNInt ((⌈x⌉ : ℤ) : ℚ) :=
  isNNInt_iff.mpr ⟨⌈x⌉, Int.ceil_nonneg h, rfl⟩

theorem nnIntParse_eq_ok {q a : ℚ} :
    nonNegativeIntegerParse q = .ok a ↔ IsNNInt q ∧ a = q := by
  unfold nonNegativeIntegerParse
  split
  next h => simp [IsNNInt, h, eq_comm]
  next h => simp [IsNNInt, h]

theorem nnIntParse_eq_error {q : ℚ} {e : Err} :
    nonNegativeIntegerParse q = .error e ↔ ¬IsNNInt q ∧ e = .validation := by
  unfold nonNegativeIntegerParse
  split
  next h => simp [IsNNInt, h]
  next h => simp [IsNNInt, h, eq_comm]

theorem nnNumParse_eq_ok {q a : ℚ} :
    nonNegativeNumberParse q = .ok a ↔ 0 ≤ q ∧ a = q := by
  unfold nonNegativeNumberParse
  split <;> simp_all [eq_comm]

theorem markDirty_resources (s : State) (n : StoreName) :
    (markDirty s n).resources = s.resources := rfl

theorem markDirty_operationsFinished (s : State) (n : StoreName) :
    (markDirty s n).operationsFinished = s.operationsFinished := rfl

theorem markDirty_operationsProgress (s : State) (n : StoreName) :
    (markDirty s n).operationsProgress = s.operationsProgress := rfl

theorem markDirty_activeBonuses (s : State) (n : StoreName) :
    (markDirty s n).activeBonuses = s.activeBonuses := rfl

/-- The state invariant maintained by gameplay: counters are non-negative
integers, progress timestamps are ordered, stored bonuses are
schema-valid. -/
structure StateWF (s : State) : Prop where
  res : ∀ r, IsNNInt (s.resources.get r)
  prog : ∀ oid p, s.operationsProgress oid = some p →
    0 ≤ p.claimableAt ∧ p.claimableAt ≤ p.cooldownTill
  bonus : ∀ ab ∈ s.activeBonuses, BonusWF ab.bonus

theorem initialState_wf : StateWF initialState := by
  refine ⟨fun r => ?_, fun oid p h => by simp [initialState] at h, by
    simp [initialState]⟩
  cases r <;> exact ⟨le_refl 0, rfl⟩

theorem resources_set_wf {rs : Resources} {r : Resource} {v : ℚ}
    (hrs : ∀ r', IsNNInt (rs.get r')) (hv : IsNNInt v) :
    ∀ r', IsNNInt ((rs.set r v).get r') := by
  intro r'
  by_cases h : r' = r
  · subst h; rw [Resources.get_set_same]; exact hv
  · rw [Resources.get_set_ne _ _ _ _ h]; exact hrs r'

/-- The state `addResource` adds to on success. -/
def addedState (s : State) (r : Resource) (a : ℚ) : State :=
  markDirty { s with resources := s.resources.set r (s.resources.get r + a) }
    .resources

/-- The state `spendResource` leaves on a successful deduction. -/
def spentState (s : State) (r : Resource) (a : ℚ) : State :=
  markDirty { s with resources := s.resources.set r (s.resources.get r - a) }
    .resources

theorem addResource_valid {s : State} {r : Resource} {a : ℚ}
    (hia : IsNNInt a) : addResource s r a = .ok (addedState s r a) := by
  unfold addResource
  rw [show nonNegativeIntegerParse a = .ok a from nnIntParse_eq_ok.mpr ⟨hia, rfl⟩]
  rfl

theorem addResource_invalid {s : State} {r : Resource} {a : ℚ}
    (hna : ¬IsNNInt a) : addResource s r a = .error (.validation, s) := by
  unfold addResource
  rw [show nonNegativeIntegerParse a = .error .validation from
    nnIntParse_eq_error.mpr ⟨hna, rfl⟩]

theorem addResource_eq_ok {s : State} {r : Resource} {a : ℚ} {s' : State}
    (h : addResource s r a = .ok s') : IsNNInt a ∧ s' = addedState s r a := by
  by_cases hia : IsNNInt a
  · rw [addResource_valid hia] at h
    injection h with h
    exact ⟨hia, h.symm⟩
  · rw [addResource_invalid hia] at h
    exact absurd h (by simp)

theorem addResource_eq_error {s : State} {r : Resource} {a : ℚ}
    {e : Err} {t : State} (h : addResource s r a = .error (e, t)) :
    ¬IsNNInt a ∧ e = .validation ∧ t = s := by
  by_cases hia : IsNNInt a
  · rw [addResource_valid hia] at h
    exact absurd h (by simp)
  · rw [addResource_invalid hia] at h
    injection h with h
    exact ⟨hia, congrArg Prod.fst h.symm, congrArg Prod.snd h.symm⟩

theorem addResourceState_valid {s : State} {r : Resource} {a : ℚ}
    (hia : IsNNInt a) : addResourceState s r a = addedState s r a := by
  unfold addResourceState
  rw [addResource_valid hia]

theorem addResourceState_invalid {s : State} {r : Resource} {a : ℚ}
    (hna : ¬IsNNInt a) : addResourceState s r a = s := by
  unfold addResourceState
  rw [addResource_invalid hna]

theorem addedState_wf {s : State} {r : Resource} {a : ℚ}
    (hwf : StateWF s) (hia : IsNNInt a) : StateWF (addedState s r a) :=
  ⟨resources_set_wf hwf.res (IsNNInt.add (hwf.res r) hia), hwf.prog,
    hwf.bonus⟩

theorem addResourceState_wf {s : State} {r : Resource} {a : ℚ}
    (hwf : StateWF s) : StateWF (addResourceState s r a) := by
  by_cases hia : IsNNInt a
  · rw [addResourceState_valid hia]
    exact addedState_wf hwf hia
  · rw [addResourceState_invalid hia]
    exact hwf

theorem spendResource_insufficient {s : State} {r : Resource} {a : ℚ}
    (h : s.resources.get r < a) : spendResource s r a = .ok (false, s) := by
  unfold spendResource
  rw [if_neg (not_le.mpr h)]

theorem spendResource_invalid {s : State} {r : Resource} {a : ℚ}
    (hle : a ≤ s.resources.get r) (hna : ¬IsNNInt a) :
    spendResource s r a = .error (.validation, s) := by
  unfold spendResource
  rw [if_pos hle,
    show nonNegativeIntegerParse a = .error .validation from
      nnIntParse_eq_error.mpr ⟨hna, rfl⟩]

theorem spendResource_valid {s : State} {r : Resource} {a : ℚ}
    (hle : a ≤ s.resources.get r) (hia : IsNNInt a) :
    spendResource s r a = .ok (true, spentState s r a) := by
  unfold spendResource
  rw [if_pos hle,
    show nonNegativeIntegerParse a = .ok a from nnIntParse_eq_ok.mpr ⟨hia, rfl⟩]
  rfl

theorem spendResourceState_wf {s : State} {r : Resource} {a : ℚ}
    (hwf : StateWF s) : StateWF (spendResourceState s r a) := by
  unfold spendResourceState
  by_cases hle : a ≤ s.resources.get r
  · by_cases hia : IsNNInt a
    · rw [spendResource_valid hle hia]
      exact ⟨resources_set_wf hwf.res (IsNNInt.sub (hwf.res r) hia hle),
        hwf.prog, hwf.bonus⟩
    · rw [spendResource_invalid hle hia]
      exact hwf
  · rw [spendResource_insufficient (not_le.mp hle)]
    exact hwf

/-! ### Lemmas about the atomic multi-resource spend -/

/-- The required amount recorded for `r` in a required-amounts list. -/
def lookupAmount (l : List (Resource × ℚ)) (r : Resource) : ℚ :=
  match l.find? (fun ra => ra.1 == r) with
  | some ra => ra.2
  | none => 0

theorem lookupAmount_nil (r : Resource) : lookupAmount [] r = 0 := rfl

theorem lookupAmount_cons_same (r : Resource) (a : ℚ)
    (tl : List (Resource × ℚ)) : lookupAmount ((r, a) :: tl) r = a := by
  simp [lookupAmount, List.find?_cons_of_pos]

theorem lookupAmount_cons_ne {r r' : Resource} (a : ℚ)
    (tl : List (Resource × ℚ)) (h : r' ≠ r) :
    lookupAmount ((r', a) :: tl) r = lookupAmount tl r := by
  simp only [lookupAmount]
  rw [List.find?_cons_of_neg]
  simpa using h

theorem lookupAmount_eq_zero {l : List (Resource × ℚ)} {r : Resource}
    (h : ∀ ra ∈ l, ra.1 ≠ r) : lookupAmount l r = 0 := by
  simp only [lookupAmount]
  rw [List.find?_eq_none.mpr]
  intro ra hra
  simpa using h ra hra

theorem costEntries_pairwise (c : Cost) :
    (costEntries c).Pairwise (fun x y => x.1 ≠ y.1) := by
  rcases c with ⟨e, o, p, m⟩
  cases e <;> cases o <;> cases p <;> cases m <;>
    simp [costEntries, List.pairwise_cons]

theorem requiredEntries_pairwise (c : Cost) (m : ℚ) :
    (requiredEntries c m).Pairwise (fun x y => x.1 ≠ y.1) := by
  unfold requiredEntries
  rw [List.pairwise_map]
  exact costEntries_pairwise c

/-- One iteration of the deduction loop. -/
def deductOne (s : State) (r : Resource) (a : ℚ) : State :=
  { s with resources := s.resources.set r (s.resources.get r - a) }

theorem deductOne_get_same (s : State) (r : Resource) (a : ℚ) :
    (deductOne s r a).resources.get r = s.resources.get r - a :=
  Resources.get_set_same _ _ _

theorem deductOne_get_ne (s : State) {r r' : Resource} (a : ℚ)
    (h : r' ≠ r) : (deductOne s r a).resources.get r' = s.resources.get r' :=
  Resources.get_set_ne _ _ _ _ h

theorem deductAll_cons_valid {s : State} {r0 : Resource} {a0 : ℚ}
    (tl : List (Resource × ℚ)) (hia0 : IsNNInt a0) :
    deductAll s ((r0, a0) :: tl) = deductAll (deductOne s r0 a0) tl := by
  conv_lhs => rw [deductAll]
  rw [show nonNegativeIntegerParse a0 = .ok a0 from
    nnIntParse_eq_ok.mpr ⟨hia0, rfl⟩]
  rfl

theorem deductAll_cons_invalid {s : State} {r0 : Resource} {a0 : ℚ}
    (tl : List (Resource × ℚ)) (hna0 : ¬IsNNInt a0) :
    deductAll s ((r0, a0) :: tl) = .error (.validation, s) := by
  conv_lhs => rw [deductAll]
  rw [show nonNegativeIntegerParse a0 = .error .validation from
    nnIntParse_eq_error.mpr ⟨hna0, rfl⟩]

theorem deductAll_ok {l : List (Resource × ℚ)} : ∀ {s : State},
    l.Pairwise (fun x y => x.1 ≠ y.1) →
    (∀ ra ∈ l, ¬(s.resources.get ra.1 < ra.2)) →
    (∀ ra ∈ l, IsNNInt ra.2) →
    ∃ s', deductAll s l = .ok s' ∧
      (∀ r, s'.resources.get r = s.resources.get r - lookupAmount l r) ∧
      s'.operationsFinished = s.operationsFinished ∧
      s'.operationsProgress = s.operationsProgress ∧
      s'.activeBonuses = s.activeBonuses ∧
      s'.syncPhase = s.syncPhase ∧
      s'.dirty = s.dirty ∧
      s'.lastSave = s.lastSave := by
  induction l with
  | nil =>
      intro s _ _ _
      exact ⟨s, rfl, fun r => by rw [lookupAmount_nil]; ring, rfl, rfl, rfl,
        rfl, rfl, rfl⟩
  | cons hd tl ih =>
      rintro s hpair haff hint
      obtain ⟨r0, a0⟩ := hd
      have hia0 : IsNNInt a0 := hint _ (List.mem_cons_self _ _)
      have hne : ∀ ra ∈ tl, ra.1 ≠ r0 := by
        intro ra hra
        exact fun hh => ((List.pairwise_cons.mp hpair).1 ra hra) hh.symm
      have hget1 : ∀ ra ∈ tl,
          (deductOne s r0 a0).resources.get ra.1 = s.resources.get ra.1 :=
        fun ra hra => deductOne_get_ne s _ (hne ra hra)
      obtain ⟨s', hdeq, hres, hfin, hprog, hbon, hsync, hdirty, hlast⟩ :=
        ih (List.pairwise_cons.mp hpair).2
          (fun ra hra => by
            rw [hget1 ra hra]
            exact haff ra (List.mem_cons_of_mem _ hra))
          (fun ra hra => hint ra (List.mem_cons_of_mem _ hra))
      refine ⟨s', by rw [deductAll_cons_valid tl hia0]; exact hdeq, ?_, hfin,
        hprog, hbon, hsync, hdirty, hlast⟩
      intro r
      by_cases hr : r = r0
      · subst hr
        rw [hres r, lookupAmount_cons_same,
            lookupAmount_eq_zero (fun ra hra => hne ra hra),
            deductOne_get_same]
        ring
      · rw [hres r, lookupAmount_cons_ne _ _ (fun hh => hr hh.symm),
            deductOne_get_ne s _ (fun hh => hr hh)]

theorem deductAll_wf {l : List (Resource × ℚ)} : ∀ {s : State},
    l.Pairwise (fun x y => x.1 ≠ y.1) →
    (∀ ra ∈ l, ¬(s.resources.get ra.1 < ra.2)) →
    StateWF s →
    (∀ s', deductAll s l = .ok s' → StateWF s') ∧
      (∀ e t, deductAll s l = .error (e, t) → StateWF t) := by
  induction l with
  | nil =>
      intro s _ _ hwf
      constructor
      · intro s' h
        injection h with h
        exact h ▸ hwf
      · intro e t h
        exact absurd h (by simp [deductAll])
  | cons hd tl ih =>
      rintro s hpair haff hwf
      obtain ⟨r0, a0⟩ := hd
      have hne : ∀ ra ∈ tl, ra.1 ≠ r0 := by
        intro ra hra
        exact fun hh => ((List.pairwise_cons.mp hpair).1 ra hra) hh.symm
      by_cases hia0 : IsNNInt a0
      · have hle0 : a0 ≤ s.resources.get r0 :=
          not_lt.mp (haff _ (List.mem_cons_self _ _))
        have hwf1 : StateWF (deductOne s r0 a0) :=
          ⟨resources_set_wf hwf.res (IsNNInt.sub (hwf.res r0) hia0 hle0),
            hwf.prog, hwf.bonus⟩
        have haff1 : ∀ ra ∈ tl,
            ¬((deductOne s r0 a0).resources.get ra.1 < ra.2) := by
          intro ra hra
          rw [deductOne_get_ne s _ (hne ra hra)]
          exact haff ra (List.mem_cons_of_mem _ hra)
        obtain ⟨ihok, iherr⟩ :=
          ih (List.pairwise_cons.mp hpair).2 haff1 hwf1
        constructor
        · intro s' h
          rw [deductAll_cons_valid tl hia0] at h
          exact ihok s' h
        · intro e t h
          rw [deductAll_cons_valid tl hia0] at h
          exact iherr e t h
      · constructor
        · intro s' h
          rw [deductAll_cons_invalid tl hia0] at h
          exact absurd h (by simp)
        · intro e t h
          rw [deductAll_cons_invalid tl hia0] at h
          injection h with h
          rw [Prod.mk.injEq] at h
          exact h.2 ▸ hwf


theorem markDirty_wf {s : State} (n : StoreName) (hwf : StateWF s) :
    StateWF (markDirty s n) :=
  ⟨hwf.res, hwf.prog, hwf.bonus⟩

theorem spendCheck_iff {s : State} {l : List (Resource × ℚ)} :
    (l.all (fun ra => !(s.resources.get ra.1 < ra.2 : Bool)) = true) ↔
      ∀ ra ∈ l, ¬(s.resources.get ra.1 < ra.2) := by
  simp [List.all_eq_true]

theorem spendResourcesByCost_false {s : State} {c : Cost} {m : ℚ}
    (h : ¬∀ ra ∈ requiredEntries c m, ¬(s.resources.get ra.1 < ra.2)) :
    spendResourcesByCost s c m = .ok (false, s) := by
  simp only [spendResourcesByCost]
  rw [if_neg (fun hc => h (spendCheck_iff.mp hc))]

theorem spendResourcesByCost_checked {s : State} {c : Cost} {m : ℚ}
    (h : ∀ ra ∈ requiredEntries c m, ¬(s.resources.get ra.1 < ra.2)) :
    spendResourcesByCost s c m =
      match deductAll s (requiredEntries c m) with
      | .error e => .error e
      | .ok s' => .ok (true, markDirty s' .resources) := by
  simp only [spendResourcesByCost]
  rw [if_pos (spendCheck_iff.mpr h)]

/-- The required amount for one resource of the cost map:
`ceil(baseCost * multiplier)` when the resource is in the map, 0
otherwise. -/
def requiredFor (c : Cost) (m : ℚ) (r : Resource) : ℚ :=
  match c.get r with
  | some v => ((⌈v * m⌉ : ℤ) : ℚ)
  | none => 0

theorem lookupAmount_requiredEntries (c : Cost) (m : ℚ) (r : Resource) :
    lookupAmount (requiredEntries c m) r = requiredFor c m r := by
  rcases c with ⟨e, o, p, mo⟩
  cases r <;> cases e <;> cases o <;> cases p <;> cases mo <;>
    simp [requiredEntries, costEntries, Cost.get, requiredFor, lookupAmount,
      List.find?] <;> rfl

theorem costEntries_mem_get {c : Cost} {r : Resource} {v : ℚ}
    (h : (r, v) ∈ costEntries c) : c.get r = some v := by
  rcases c with ⟨e, o, p, mo⟩
  cases r <;> cases e <;> cases o <;> cases p <;> cases mo <;>
    simp_all [costEntries, Cost.get]

theorem requiredEntries_nnint {c : Cost} {m : ℚ} (hm : 0 ≤ m)
    (hc : ∀ r v, c.get r = some v → 0 ≤ v) :
    ∀ ra ∈ requiredEntries c m, IsNNInt ra.2 := by
  rintro ⟨r, a⟩ hra
  simp only [requiredEntries, List.mem_map] at hra
  obtain ⟨⟨r0, v⟩, hmem, heq⟩ := hra
  have ha : a = ((⌈v * m⌉ : ℤ) : ℚ) := by
    have h2 := congrArg Prod.snd heq
    simpa using h2.symm
  have hv : 0 ≤ v := hc r0 v (costEntries_mem_get hmem)
  rw [ha]
  exact IsNNInt.ceil (mul_nonneg hv hm)

theorem spendResourcesByCost_true {s : State} {c : Cost} {m : ℚ}
    (haff : ∀ ra ∈ requiredEntries c m, ¬(s.resources.get ra.1 < ra.2))
    (hint : ∀ ra ∈ requiredEntries c m, IsNNInt ra.2) :
    ∃ s', spendResourcesByCost s c m = .ok (true, s') ∧
      (∀ r, s'.resources.get r = s.resources.get r - requiredFor c m r) ∧
      s'.operationsFinished = s.operationsFinished ∧
      s'.operationsProgress = s.operationsProgress ∧
      s'.activeBonuses = s.activeBonuses ∧
      s'.syncPhase = s.syncPhase ∧
      s'.lastSave = s.lastSave := by
  obtain ⟨t, hdeq, hres, hfin, hprog, hbon, hsync, hdirty, hlast⟩ :=
    deductAll_ok (requiredEntries_pairwise c m) haff hint
  refine ⟨markDirty t .resources, ?_, ?_, hfin, hprog, hbon, hsync, hlast⟩
  · rw [spendResourcesByCost_checked haff, hdeq]
  · intro r
    rw [markDirty_resources, hres r, lookupAmount_requiredEntries]

theorem spendResourcesByCost_wf {s : State} {c : Cost} {m : ℚ}
    (hwf : StateWF s) :
    (∀ b t, spendResourcesByCost s c m = .ok (b, t) → StateWF t) ∧
      (∀ e t, spendResourcesByCost s c m = .error (e, t) → StateWF t) := by
  by_cases hall : ∀ ra ∈ requiredEntries c m, ¬(s.resources.get ra.1 < ra.2)
  · have heq := spendResourcesByCost_checked (s := s) (c := c) (m := m) hall
    obtain ⟨hok, herr⟩ :=
      deductAll_wf (requiredEntries_pairwise c m) hall hwf
    constructor
    · intro b t h
      rw [heq] at h
      cases hd : deductAll s (requiredEntries c m) with
      | error e =>
          rw [hd] at h
          exact absurd h (by simp)
      | ok s' =>
          rw [hd] at h
          simp only [Except.ok.injEq, Prod.mk.injEq] at h
          exact h.2 ▸ markDirty_wf _ (hok s' hd)
    · intro e t h
      rw [heq] at h
      cases hd : deductAll s (requiredEntries c m) with
      | error e' =>
          rw [hd] at h
          simp only [Except.error.injEq] at h
          obtain ⟨e1, t1⟩ := e'
          exact (Prod.mk.injEq .. |>.mp h).2 ▸ herr e1 t1 hd
      | ok s' =>
          rw [hd] at h
          exact absurd h (by simp)
  · have heq := spendResourcesByCost_false (s := s) (c := c) (m := m) hall
    constructor
    · intro b t h
      rw [heq] at h
      simp only [Except.ok.injEq, Prod.mk.injEq] at h
      exact h.2 ▸ hwf
    · intro e t h
      rw [heq] at h
      exact absurd h (by simp)

theorem spendResourcesByCost_ok_false {s : State} {c : Cost} {m : ℚ}
    {t : State} (h : spendResourcesByCost s c m = .ok (false, t)) :
    t = s := by
  by_cases hall : ∀ ra ∈ requiredEntries c m, ¬(s.resources.get ra.1 < ra.2)
  · rw [spendResourcesByCost_checked hall] at h
    cases hd : deductAll s (requiredEntries c m) with
    | error e => rw [hd] at h; exact absurd h (by simp)
    | ok s' =>
        rw [hd] at h
        simp only [Except.ok.injEq, Prod.mk.injEq] at h
        exact absurd h.1 (by simp)
  · rw [spendResourcesByCost_false hall] at h
    simp only [Except.ok.injEq, Prod.mk.injEq] at h
    exact h.2.symm

theorem spendResourcesByCostState_wf {s : State} {c : Cost} {m : ℚ}
    (hwf : StateWF s) : StateWF (spendResourcesByCostState s c m) := by
  unfold spendResourcesByCostState
  obtain ⟨hok, herr⟩ := spendResourcesByCost_wf (c := c) (m := m) hwf
  cases h : spendResourcesByCost s c m with
  | error e =>
      obtain ⟨e1, t1⟩ := e
      exact herr e1 t1 h
  | ok p =>
      obtain ⟨b, t⟩ := p
      exact hok b t h

/-! ### Invariant preservation through claim and conduct -/

theorem getMultipliers_ok_nonneg {env : Env} {s : State} {key : GainKey}
    {q : ℚ} (h : getMultipliers env s key = .ok q) : 0 ≤ q := by
  unfold getMultipliers at h
  obtain ⟨h0, rfl⟩ := nnNumParse_eq_ok.mp h
  exact h0

/-- Both outcomes of an `Except (Err × State) State` computation carry a
well-formed state. -/
def ExceptStateWF (r : Except (Err × State) State) : Prop :=
  (∀ t, r = .ok t → StateWF t) ∧ ∀ e t, r = .error (e, t) → StateWF t

theorem addResource_exceptWF {s : State} {r : Resource} {a : ℚ}
    (hwf : StateWF s) : ExceptStateWF (addResource s r a) := by
  constructor
  · intro t h
    obtain ⟨hia, rfl⟩ := addResource_eq_ok h
    exact addedState_wf hwf hia
  · intro e t h
    obtain ⟨-, -, rfl⟩ := addResource_eq_error h
    exact hwf

theorem incrementFinished_wf {s : State} {op : Operation}
    (hwf : StateWF s) : StateWF (incrementFinished s op) :=
  ⟨hwf.res, hwf.prog, hwf.bonus⟩

theorem addReputationReward_exceptWF {env : Env} {s : State}
    {op : Operation} (hwf : StateWF s) :
    ExceptStateWF (addReputationReward env s op) := by
  unfold addReputationReward
  cases h : getMultipliers env s .reputationGain with
  | error e =>
      constructor
      · intro t hh
        exact absurd hh (by simp)
      · intro e' t hh
        injection hh with hh
        rw [Prod.mk.injEq] at hh
        exact hh.2 ▸ hwf
  | ok repMult => exact addResource_exceptWF hwf

theorem addOutputReward_exceptWF {env : Env} {s : State} {op : Operation}
    (hwf : StateWF s) : ExceptStateWF (addOutputReward env s op) := by
  unfold addOutputReward
  split
  · split
    · cases h : getMultipliers env s .outputGain with
      | error e =>
          constructor
          · intro t hh
            exact absurd hh (by simp)
          · intro e' t hh
            injection hh with hh
            rw [Prod.mk.injEq] at hh
            exact hh.2 ▸ hwf
      | ok outMult => exact addResource_exceptWF hwf
    · exact ⟨fun t hh => by injection hh with hh; exact hh ▸ hwf,
        fun e t hh => absurd hh (by simp)⟩
  · exact ⟨fun t hh => by injection hh with hh; exact hh ▸ hwf,
      fun e t hh => absurd hh (by simp)⟩

theorem addMoneyReward_exceptWF {env : Env} {s : State} {op : Operation}
    (hwf : StateWF s) : ExceptStateWF (addMoneyReward env s op) := by
  unfold addMoneyReward
  split
  · split
    · cases h : getMultipliers env s .moneyGain with
      | error e =>
          constructor
          · intro t hh
            exact absurd hh (by simp)
          · intro e' t hh
            injection hh with hh
            rw [Prod.mk.injEq] at hh
            exact hh.2 ▸ hwf
      | ok monMult => exact addResource_exceptWF hwf
    · exact ⟨fun t hh => by injection hh with hh; exact hh ▸ hwf,
        fun e t hh => absurd hh (by simp)⟩
  · exact ⟨fun t hh => by injection hh with hh; exact hh ▸ hwf,
      fun e t hh => absurd hh (by simp)⟩

theorem pushBonusReward_wf {s : State} {op : Operation} {now : ℚ}
    (hwf : StateWF s) (hop : OperationWF op) :
    StateWF (pushBonusReward s op now) := by
  have hbwf : ∀ b, op.rewards.bonus = some b → BonusWF b :=
    hop.2.2.2.2.2.2.2
  unfold pushBonusReward
  split
  next target value d heq =>
    split
    · refine ⟨hwf.res, hwf.prog, ?_⟩
      intro ab hab
      rw [List.mem_append] at hab
      rcases hab with hmem | hmem
      · exact hwf.bonus ab hmem
      · rw [List.mem_singleton] at hmem
        rw [hmem]
        exact hbwf _ heq
    · exact hwf
  next => exact hwf

theorem clearClaimable_wf {s : State} {op : Operation} {p : Progress}
    (hwf : StateWF s) (hp : 0 ≤ p.cooldownTill) :
    StateWF (clearClaimable s op p) := by
  refine ⟨hwf.res, ?_, hwf.bonus⟩
  intro oid q hq
  simp only [clearClaimable] at hq
  by_cases hi : oid = op.id
  · rw [if_pos hi] at hq
    injection hq with hq
    rw [← hq]
    exact ⟨le_refl 0, hp⟩
  · rw [if_neg hi] at hq
    exact hwf.prog oid q hq

theorem claimOperation_exceptWF {env : Env} {s : State} {op : Operation}
    {now : ℚ} (hwf : StateWF s) (hop : OperationWF op) :
    ExceptStateWF (claimOperation env s op now) := by
  have herrs : ∀ e0 : Err, ExceptStateWF (.error (e0, s)) := by
    intro e0
    constructor
    · intro t hh
      exact absurd hh (by simp)
    · intro e t hh
      injection hh with hh
      rw [Prod.mk.injEq] at hh
      exact hh.2 ▸ hwf
  unfold claimOperation
  split
  next heq => exact herrs _
  next progressEntry heq =>
    have hpwf := hwf.prog op.id progressEntry heq
    have hct : 0 ≤ progressEntry.cooldownTill := le_trans hpwf.1 hpwf.2
    split
    · exact herrs _
    · split
      · exact herrs _
      · exact herrs _
      · exact herrs _
      · constructor
        · intro t hh
          rw [bindE_eq_ok] at hh
          obtain ⟨s2, h2, hh⟩ := hh
          rw [bindE_eq_ok] at hh
          obtain ⟨s3, h3, hh⟩ := hh
          rw [bindE_eq_ok] at hh
          obtain ⟨s4, h4, hh⟩ := hh
          injection hh with hh
          have hwf2 :=
            (@addReputationReward_exceptWF env _ op
              (incrementFinished_wf hwf)).1 s2 h2
          have hwf3 := (@addOutputReward_exceptWF env _ op
            hwf2).1 s3 h3
          have hwf4 := (@addMoneyReward_exceptWF env _ op
            hwf3).1 s4 h4
          rw [← hh]
          exact markDirty_wf _
            (clearClaimable_wf (pushBonusReward_wf hwf4 hop) hct)
        · intro e t hh
          rw [bindE_eq_error] at hh
          rcases hh with h2 | ⟨s2, h2, hh⟩
          · exact (@addReputationReward_exceptWF env _ op
              (incrementFinished_wf hwf)).2 e t h2
          · have hwf2 :=
              (@addReputationReward_exceptWF env _ op
                (incrementFinished_wf hwf)).1 s2 h2
            rw [bindE_eq_error] at hh
            rcases hh with h3 | ⟨s3, h3, hh⟩
            · exact (@addOutputReward_exceptWF env _ op
                hwf2).2 e t h3
            · have hwf3 := (@addOutputReward_exceptWF env _ op
                hwf2).1 s3 h3
              rw [bindE_eq_error] at hh
              rcases hh with h4 | ⟨s4, h4, hh⟩
              · exact (@addMoneyReward_exceptWF env _ op
                  hwf3).2 e t h4
              · exact absurd hh (by simp)

theorem claimOperationState_wf {env : Env} {s : State} {op : Operation}
    {now : ℚ} (hwf : StateWF s) (hop : OperationWF op) :
    StateWF (claimOperationState env s op now) := by
  unfold claimOperationState
  obtain ⟨hok, herr⟩ :=
    @claimOperation_exceptWF env _ _ now hwf hop
  cases h : claimOperation env s op now with
  | error e =>
      obtain ⟨e1, t1⟩ := e
      exact herr e1 t1 h
  | ok t => exact hok t h

theorem finalDuration_nonneg {op : Operation} (durRed : ℚ)
    (hop : OperationWF op) : 0 ≤ finalDuration op durRed := by
  unfold finalDuration
  have h1 : (0 : ℚ) < max durRed (1 / 1000) :=
    lt_of_lt_of_le (by norm_num) (le_max_right _ _)
  exact mul_nonneg hop.1.1 (le_of_lt (one_div_pos.mpr h1))

theorem conductProgress_wf {s' : State} {op : Operation} {now duration : ℚ}
    (hwf : StateWF s') (hop : OperationWF op) (hnow : 0 ≤ now)
    (hdur : 0 ≤ duration) : StateWF (conductProgress s' op now duration) := by
  refine ⟨hwf.res, ?_, hwf.bonus⟩
  intro oid q hq
  simp only [conductProgress, markDirty] at hq
  by_cases hi : oid = op.id
  · rw [if_pos hi] at hq
    injection hq with hq
    rw [← hq]
    have hcool : 0 ≤ op.cooldown := hop.2.1.1
    constructor
    · simp only
      positivity
    · simp only
      nlinarith
  · rw [if_neg hi] at hq
    exact hwf.prog oid q hq

theorem conductOperation_wf {env : Env} {s : State} {op : Operation}
    {now : ℚ} (hwf : StateWF s) (hop : OperationWF op) (hnow : 0 ≤ now) :
    (∀ d t, conductOperation env s op now = .ok (d, t) → StateWF t) ∧
      ∀ e t, conductOperation env s op now = .error (e, t) → StateWF t := by
  constructor
  · intro d t hh
    unfold conductOperation at hh
    split at hh
    · exact absurd hh (by simp)
    · rw [bindM_eq_ok] at hh
      obtain ⟨costRed, -, hh⟩ := hh
      rw [bindB_eq_ok] at hh
      obtain ⟨spent, s', hsp, hh⟩ := hh
      have hwf' := (spendResourcesByCost_wf (c := op.cost)
        (m := finalCostMultiplier env op costRed) hwf).1 spent s' hsp
      cases spent with
      | false => exact absurd hh (by simp)
      | true =>
          rw [if_pos rfl] at hh
          rw [bindM_eq_ok] at hh
          obtain ⟨durRed, -, hh⟩ := hh
          have hwfc := conductProgress_wf hwf' hop hnow
            (finalDuration_nonneg durRed hop)
          split at hh
          · rw [bindE_eq_ok] at hh
            obtain ⟨s3, h3, hh⟩ := hh
            injection hh with hh
            rw [Prod.mk.injEq] at hh
            rw [← hh.2]
            exact (claimOperation_exceptWF hwfc hop).1 s3 h3
          · injection hh with hh
            rw [Prod.mk.injEq] at hh
            exact hh.2 ▸ hwfc
  · intro e t hh
    unfold conductOperation at hh
    split at hh
    · injection hh with hh
      rw [Prod.mk.injEq] at hh
      exact hh.2 ▸ hwf
    · rw [bindM_eq_error] at hh
      rcases hh with ⟨e0, -, hp⟩ | ⟨costRed, -, hh⟩
      · rw [Prod.mk.injEq] at hp
        exact hp.2 ▸ hwf
      · rw [bindB_eq_error] at hh
        rcases hh with hsp | ⟨spent, s', hsp, hh⟩
        · exact (spendResourcesByCost_wf (c := op.cost)
            (m := finalCostMultiplier env op costRed) hwf).2 e t hsp
        · have hwf' := (spendResourcesByCost_wf (c := op.cost)
            (m := finalCostMultiplier env op costRed) hwf).1 spent s' hsp
          cases spent with
          | false =>
              rw [if_neg (by simp)] at hh
              injection hh with hh
              rw [Prod.mk.injEq] at hh
              exact hh.2 ▸ hwf'
          | true =>
              rw [if_pos rfl] at hh
              rw [bindM_eq_error] at hh
              rcases hh with ⟨e0, -, hp⟩ | ⟨durRed, -, hh⟩
              · rw [Prod.mk.injEq] at hp
                exact hp.2 ▸ hwf'
              · have hwfc := conductProgress_wf hwf' hop hnow
                  (finalDuration_nonneg durRed hop)
                split at hh
                · rw [bindE_eq_error] at hh
                  rcases hh with h3 | ⟨s3, -, hh⟩
                  · exact (claimOperation_exceptWF hwfc hop).2 e t h3
                  · exact absurd hh (by simp)
                · exact absurd hh (by simp)

theorem conductOperationState_wf {env : Env} {s : State} {op : Operation}
    {now : ℚ} (hwf : StateWF s) (hop : OperationWF op) (hnow : 0 ≤ now) :
    StateWF (conductOperationState env s op now) := by
  unfold conductOperationState
  obtain ⟨hok, herr⟩ := @conductOperation_wf env _ _ _ hwf hop hnow
  cases h : conductOperation env s op now with
  | error e =>
      obtain ⟨e1, t1⟩ := e
      exact herr e1 t1 h
  | ok p =>
      obtain ⟨d, t⟩ := p
      exact hok d t h

theorem expireBonuses_wf {s : State} {now : ℚ} (hwf : StateWF s) :
    StateWF (expireBonuses s now) := by
  unfold expireBonuses
  dsimp only
  have hkept : ∀ ab ∈ s.activeBonuses.filter (fun ab => now < ab.expiresAt),
      BonusWF ab.bonus := by
    intro ab hab
    exact hwf.bonus ab (List.mem_of_mem_filter hab)
  split
  · exact ⟨hwf.res, hwf.prog, hkept⟩
  · exact ⟨hwf.res, hwf.prog, hkept⟩

theorem saveStateEffect_wf {s : State} {now : ℚ} (hwf : StateWF s) :
    StateWF (saveStateEffect s now) :=
  ⟨hwf.res, hwf.prog, hwf.bonus⟩

/-! ### Reachability through the public gameplay operations -/

/-- One public gameplay mutation.  `conduct` and `claim` receive
schema-validated operation definitions and the non-negative wall clock
`Date.now()`; a throwing call keeps the mutations applied before the
throw (the `...State` functions).  `expire` is the bonus sweep run by
each round; `save` is the persistence coordinator's dirty-clearing
effect on the in-memory state. -/
inductive Step (env : Env) : State → State → Prop
  | add (s : State) (r : Resource) (amount : ℚ) :
      Step env s (addResourceState s r amount)
  | spend (s : State) (r : Resource) (amount : ℚ) :
      Step env s (spendResourceState s r amount)
  | spendByCost (s : State) (c : Cost) (m : ℚ) :
      Step env s (spendResourcesByCostState s c m)
  | conduct (s : State) (op : Operation) (now : ℚ) :
      OperationWF op → 0 ≤ now →
      Step env s (conductOperationState env s op now)
  | claim (s : State) (op : Operation) (now : ℚ) :
      OperationWF op → 0 ≤ now →
      Step env s (claimOperationState env s op now)
  | expire (s : State) (now : ℚ) : Step env s (expireBonuses s now)
  | save (s : State) (now : ℚ) : Step env s (saveStateEffect s now)

/-- States reachable from the zeroed initial stores by gameplay. -/
def Reachable (env : Env) (s : State) : Prop :=
  Relation.ReflTransGen (Step env) initialState s

theorem step_wf {env : Env} {s t : State} (hwf : StateWF s)
    (hstep : Step env s t) : StateWF t := by
  cases hstep with
  | add r amount => exact addResourceState_wf hwf
  | spend r amount => exact spendResourceState_wf hwf
  | spendByCost c m => exact spendResourcesByCostState_wf hwf
  | conduct op now hop hnow => exact conductOperationState_wf hwf hop hnow
  | claim op now hop hnow => exact claimOperationState_wf hwf hop
  | expire now => exact expireBonuses_wf hwf
  | save now => exact saveStateEffect_wf hwf

theorem reachable_wf {env : Env} {s : State} (h : Reachable env s) :
    StateWF s := by
  induction h with
  | refl => exact initialState_wf
  | tail _ hstep ih => exact step_wf ih hstep

/-! ### Persistence lemmas -/

theorem setIdle_eq_self {s : State} (h : s.syncPhase = .idle) :
    ({ s with syncPhase := SyncPhase.idle } : State) = s := by
  cases s
  simp_all

theorem isDirty_syncPhase (s : State) (ph : SyncPhase) :
    isDirty { s with syncPhase := ph } = isDirty s := rfl

theorem syncLoadSnapshot_dirty {s : State} {snapshot : GameSaveSnapshot}
    (h : isDirty s = true) :
    syncLoadSnapshot s snapshot = .error (.loadWhileDirty, s) := by
  unfold syncLoadSnapshot
  rw [h]
  rfl

theorem resourcesLoadSnapshot_roundtrip {s : State} {t : ℚ}
    (hwf : StateWF s) :
    resourcesLoadSnapshot s (syncGetSnapshot s t) = .ok s := by
  unfold resourcesLoadSnapshot syncGetSnapshot resourcesGetSnapshot
  rw [if_pos ⟨hwf.res .energy, hwf.res .output, hwf.res .reputation,
    hwf.res .money⟩]

theorem operationsLoadSnapshot_roundtrip {s : State} {t : ℚ}
    (hwf : StateWF s) :
    operationsLoadSnapshot s (syncGetSnapshot s t) = .ok s := by
  unfold operationsLoadSnapshot syncGetSnapshot operationsGetSnapshot
  rw [if_pos]
  rw [List.all_eq_true]
  intro ab hab
  exact bonusWFb_eq_true (hwf.bonus ab hab)

theorem syncLoadSnapshot_roundtrip {s : State} {t : ℚ} (hwf : StateWF s)
    (hd : isDirty s = false) :
    syncLoadSnapshot s (syncGetSnapshot s t) = .ok s := by
  unfold syncLoadSnapshot
  rw [hd]
  rw [if_neg (by simp)]
  rw [resourcesLoadSnapshot_roundtrip hwf]
  exact operationsLoadSnapshot_roundtrip hwf

/-! ### Concrete instances used by witnesses and counterexamples -/

/-- An environment with every external multiplier at identity 1.0 and
the configured rarity scale table. -/
def envId : Env :=
  ⟨fun _ => 1, fun _ => 1, fun _ => 1, configOperationScaleFactor⟩

/-- The scenario operation of the spec: rarity common, cost
`{energy: 5, output: 10}`. -/
def scenarioOp : Operation where
  id := ("op-scenario")
  name := ("Scenario")
  rarity := .common
  duration := 1
  cooldown := 0
  cost := ⟨some 5, some 10, none, none⟩
  rewards := ⟨1, none, none, none⟩

theorem isNNInt_of_int (q : ℚ) (z : ℤ) (hz : 0 ≤ z) (hq : q = (z : ℚ)) :
    IsNNInt q := isNNInt_iff.mpr ⟨z, hz, hq⟩

theorem scenarioOp_wf : OperationWF scenarioOp := by
  refine ⟨isNNInt_of_int _ 1 (by norm_num) (by norm_num [scenarioOp]),
    isNNInt_of_int _ 0 (by norm_num) (by norm_num [scenarioOp]), ?_,
    Or.inl ⟨5, rfl, by norm_num⟩,
    isNNInt_of_int _ 1 (by norm_num) (by norm_num [scenarioOp]), ?_, ?_, ?_⟩
  · intro r v h
    cases r <;> simp [scenarioOp, Cost.get] at h <;> rw [← h]
    · exact isNNInt_of_int _ 5 (by norm_num) (by norm_num)
    · exact isNNInt_of_int _ 10 (by norm_num) (by norm_num)
  · intro v h
    exact absurd h (by simp [scenarioOp])
  · intro v h
    exact absurd h (by simp [scenarioOp])
  · intro b h
    exact absurd h (by simp [scenarioOp])

/-- The scenario balance `{output: 10, energy: 5}`. -/
def scenarioBalance : State :=
  { initialState with resources := ⟨5, 10, 0, 0⟩ }

/-- A balance large enough to afford the example spends. -/
def richState : State :=
  { initialState with resources := ⟨100, 100, 100, 100⟩ }

/-! ### Claim theorems -/

/-- C1 counterexample: the claim "calls whose amount is negative or
non-integer fail with a validation error" is false for `spendResource`
with a non-integer amount exceeding the balance: the balance guard
`this[resource] >= amount` fails first, so the call returns `false`
without any validation error. -/
theorem spendResource_nonInteger_noValidation_cex :
    spendResource initialState .energy (1 / 2) = .ok (false, initialState) ∧
      ∀ e t, spendResource initialState .energy (1 / 2) ≠ .error (e, t) := by
  have h1 : spendResource initialState .energy (1 / 2) =
      .ok (false, initialState) :=
    spendResource_insufficient (by norm_num [initialState, Resources.get])
  refine ⟨h1, fun e t h => ?_⟩
  rw [h1] at h
  exact absurd h (by simp)

/-- C1 (amended): starting from the zeroed state, every counter stays
≥ 0 after every `addResource`/`spendResource` call; a negative or
non-integer amount makes `addResource` fail with a validation error, and
makes `spendResource` fail with a validation error whenever the balance
check `this[resource] >= amount` passes (in particular for every
negative amount); when the balance check fails, `spendResource` returns
`false`; in all of these cases no counter is mutated. -/
theorem ledgerCounters_nonneg_validation :
    (∀ (calls : List LedgerCall) (r : Resource),
        0 ≤ (runLedgerCalls initialState calls).resources.get r) ∧
    (∀ (s : State) (r : Resource) (a : ℚ), ¬IsNNInt a →
        addResource s r a = .error (.validation, s)) ∧
    (∀ (s : State) (r : Resource) (a : ℚ), ¬IsNNInt a →
        a ≤ s.resources.get r →
        spendResource s r a = .error (.validation, s)) ∧
    (∀ (s : State) (r : Resource) (a : ℚ), s.resources.get r < a →
        spendResource s r a = .ok (false, s)) := by
  refine ⟨?_, fun s r a hna => addResource_invalid hna,
    fun s r a hna hle => spendResource_invalid hle hna,
    fun s r a hlt => spendResource_insufficient hlt⟩
  have hrun : ∀ (calls : List LedgerCall) (s : State),
      Reachable envId s → Reachable envId (runLedgerCalls s calls) := by
    intro calls
    induction calls with
    | nil => exact fun s h => h
    | cons c rest ih =>
        intro s h
        unfold runLedgerCalls
        rw [List.foldl_cons]
        refine ih _ (Relation.ReflTransGen.tail h ?_)
        cases c with
        | add r amount => exact Step.add s r amount
        | spend r amount => exact Step.spend s r amount
  intro calls r
  exact ((reachable_wf
    (hrun calls initialState Relation.ReflTransGen.refl)).res r).1

theorem ledgerCounters_nonneg_validation_witness :
    (¬IsNNInt (-3 : ℚ) ∧
      addResource initialState .energy (-3) =
        .error (.validation, initialState)) ∧
    ((-7 : ℚ) ≤ initialState.resources.get .money ∧
      spendResource initialState .money (-7) =
        .error (.validation, initialState)) ∧
    (initialState.resources.get .output < 5 ∧
      spendResource initialState .output 5 = .ok (false, initialState)) :=
  ⟨⟨fun h => absurd h.1 (by norm_num),
    ledgerCounters_nonneg_validation.2.1 initialState .energy (-3)
      (fun h => absurd h.1 (by norm_num))⟩,
   ⟨by norm_num [initialState, Resources.get],
    ledgerCounters_nonneg_validation.2.2.1 initialState .money (-7)
      (fun h => absurd h.1 (by norm_num))
      (by norm_num [initialState, Resources.get])⟩,
   ⟨by norm_num [initialState, Resources.get],
    ledgerCounters_nonneg_validation.2.2.2 initialState .output 5
      (by norm_num [initialState, Resources.get])⟩⟩

/-- C2: `spendResourcesByCost(costMap, multiplier)` computes
`required[r] = ceil(costMap[r] * multiplier)` for every resource of the
cost map; if any single required amount exceeds the balance it returns
`false` with the whole state unchanged; when every required amount is
affordable (for a schema-valid cost map and non-negative multiplier) it
deducts exactly the required amount from each resource in the map,
leaves the others and the operations state unchanged, and returns
`true`. -/
theorem spendByCost_allOrNothing :
    ∀ (s : State) (c : Cost) (m : ℚ),
      ((∃ ra ∈ requiredEntries c m, s.resources.get ra.1 < ra.2) →
        spendResourcesByCost s c m = .ok (false, s)) ∧
      ((∀ r v, c.get r = some v → 0 ≤ v) → 0 ≤ m →
        (∀ ra ∈ requiredEntries c m, ra.2 ≤ s.resources.get ra.1) →
        ∃ s', spendResourcesByCost s c m = .ok (true, s') ∧
          (∀ r v, c.get r = some v →
            s'.resources.get r =
              s.resources.get r - ((⌈v * m⌉ : ℤ) : ℚ)) ∧
          (∀ r, c.get r = none →
            s'.resources.get r = s.resources.get r) ∧
          s'.operationsProgress = s.operationsProgress ∧
          s'.operationsFinished = s.operationsFinished ∧
          s'.activeBonuses = s.activeBonuses) := by
  intro s c m
  constructor
  · rintro ⟨ra, hmem, hlt⟩
    exact spendResourcesByCost_false (fun hall => (hall ra hmem) hlt)
  · intro hc hm haff
    obtain ⟨s', heq, hres, hfin, hprog, hbon, -, -⟩ :=
      spendResourcesByCost_true
        (fun ra hra => not_lt.mpr (haff ra hra))
        (requiredEntries_nnint hm hc)
    refine ⟨s', heq, ?_, ?_, hprog, hfin, hbon⟩
    · intro r v hv
      rw [hres r]
      unfold requiredFor
      rw [hv]
    · intro r hv
      rw [hres r]
      unfold requiredFor
      rw [hv]
      ring

theorem spendByCost_allOrNothing_witness :
    ((∀ r v, (⟨some 4, none, none, none⟩ : Cost).get r = some v → 0 ≤ v) ∧
      (0 : ℚ) ≤ 3 / 2 ∧
      (∀ ra ∈ requiredEntries (⟨some 4, none, none, none⟩ : Cost) (3 / 2),
        ra.2 ≤ richState.resources.get ra.1)) ∧
    (∃ s', spendResourcesByCost richState
        (⟨some 4, none, none, none⟩ : Cost) (3 / 2) = .ok (true, s') ∧
      (∀ r v, (⟨some 4, none, none, none⟩ : Cost).get r = some v →
        s'.resources.get r =
          richState.resources.get r - ((⌈v * (3 / 2)⌉ : ℤ) : ℚ)) ∧
      (∀ r, (⟨some 4, none, none, none⟩ : Cost).get r = none →
        s'.resources.get r = richState.resources.get r) ∧
      s'.operationsProgress = richState.operationsProgress ∧
      s'.operationsFinished = richState.operationsFinished ∧
      s'.activeBonuses = richState.activeBonuses) := by
  have hc : ∀ r v, (⟨some 4, none, none, none⟩ : Cost).get r = some v →
      0 ≤ v := by
    intro r v h
    cases r <;> simp [Cost.get] at h
    rw [← h]
    norm_num
  have hm : (0 : ℚ) ≤ 3 / 2 := by norm_num
  have hreq : requiredEntries (⟨some 4, none, none, none⟩ : Cost) (3 / 2) =
      [(.energy, ((6 : ℤ) : ℚ))] := by
    simp only [requiredEntries, costEntries, List.append_nil, List.map_cons,
      List.map_nil]
    norm_num
  have haff : ∀ ra ∈ requiredEntries (⟨some 4, none, none, none⟩ : Cost)
      (3 / 2), ra.2 ≤ richState.resources.get ra.1 := by
    rw [hreq]
    intro ra hra
    rw [List.mem_singleton] at hra
    rw [hra]
    norm_num [richState, Resources.get]
  exact ⟨⟨hc, hm, haff⟩,
    (spendByCost_allOrNothing richState _ _).2 hc hm haff⟩

/-- C3: the operation phase is the pure function of `(progress, now)`
given by exactly the spec's policy: no entry ↦ Idle; `claimableAt > 0`
↦ InProgress iff `claimableAt > now`, else Claimable; `claimableAt = 0`
↦ Cooldown iff `cooldownTill > now`, else Idle.  Evaluating it twice on
the same inputs gives the same phase. -/
theorem operationPhase_policy :
    (∀ now : ℚ, getOperationPhase none now = .idle) ∧
    (∀ (p : Progress) (now : ℚ), 0 < p.claimableAt →
      now < p.claimableAt → getOperationPhase (some p) now = .inProgress) ∧
    (∀ (p : Progress) (now : ℚ), 0 < p.claimableAt →
      p.claimableAt ≤ now → getOperationPhase (some p) now = .claimable) ∧
    (∀ (p : Progress) (now : ℚ), p.claimableAt = 0 →
      now < p.cooldownTill → getOperationPhase (some p) now = .cooldown) ∧
    (∀ (p : Progress) (now : ℚ), p.claimableAt = 0 →
      p.cooldownTill ≤ now → getOperationPhase (some p) now = .idle) ∧
    (∀ (pr : Option Progress) (now : ℚ),
      getOperationPhase pr now = getOperationPhase pr now) := by
  refine ⟨fun now => rfl, ?_, ?_, ?_, ?_, fun pr now => rfl⟩
  · intro p now h0 hn
    simp only [getOperationPhase]
    rw [if_pos h0, if_pos hn]
  · intro p now h0 hn
    simp only [getOperationPhase]
    rw [if_pos h0, if_neg (not_lt.mpr hn)]
  · intro p now h0 hn
    simp only [getOperationPhase]
    rw [if_neg (by rw [h0]; exact lt_irrefl 0), if_pos hn]
  · intro p now h0 hn
    simp only [getOperationPhase]
    rw [if_neg (by rw [h0]; exact lt_irrefl 0), if_neg (not_lt.mpr hn)]

theorem operationPhase_policy_witness :
    ((0 : ℚ) < 3000 ∧ (1000 : ℚ) < 3000 ∧
      getOperationPhase (some ⟨3000, 6000⟩) 1000 = .inProgress) ∧
    ((3000 : ℚ) ≤ 4500 ∧
      getOperationPhase (some ⟨3000, 6000⟩) 4500 = .claimable) ∧
    ((⟨0, 6000⟩ : Progress).claimableAt = 0 ∧ (4500 : ℚ) < 6000 ∧
      getOperationPhase (some ⟨0, 6000⟩) 4500 = .cooldown) ∧
    ((6000 : ℚ) ≤ 7000 ∧ getOperationPhase (some ⟨0, 6000⟩) 7000 = .idle) :=
  ⟨⟨by norm_num, by norm_num,
     operationPhase_policy.2.1 ⟨3000, 6000⟩ 1000 (by norm_num) (by norm_num)⟩,
   ⟨by norm_num,
     operationPhase_policy.2.2.1 ⟨3000, 6000⟩ 4500 (by norm_num)
       (by norm_num)⟩,
   ⟨rfl, by norm_num,
     operationPhase_policy.2.2.2.1 ⟨0, 6000⟩ 4500 rfl (by norm_num)⟩,
   ⟨by norm_num,
     operationPhase_policy.2.2.2.2.1 ⟨0, 6000⟩ 7000 rfl (by norm_num)⟩⟩

theorem bindM_ok_apply {β : Type} (q : ℚ) (s : State)
    (g : ℚ → Except (Err × State) β) : bindM (.ok q) s g = g q := rfl

theorem bindB_ok_apply {β : Type} (b : Bool) (x : State)
    (g : Bool → State → Except (Err × State) β) :
    bindB (.ok (b, x)) g = g b x := rfl

theorem bindE_ok_apply {β : Type} (x : State)
    (g : State → Except (Err × State) β) : bindE (.ok x) g = g x := rfl

theorem getMultipliers_envId {s : State} (hb : s.activeBonuses = [])
    (k : GainKey) : getMultipliers envId s k = .ok 1 := by
  simp only [getMultipliers, envId, bonusesMultiplier, hb, List.foldl_nil]
  unfold nonNegativeNumberParse
  rw [if_pos (by norm_num)]
  norm_num

/-- The cooldown guard of `conductOperation` (first statement of the
method). -/
theorem conductOperation_onCooldown_eq {env : Env} {s : State}
    {op : Operation} {now : ℚ} {p : Progress}
    (hp : s.operationsProgress op.id = some p)
    (hlt : now < p.cooldownTill) :
    conductOperation env s op now =
      .error (.onCooldown ⌈(p.cooldownTill - now) / 1000⌉, s) := by
  have hc : progressCooldownTill s op.id = p.cooldownTill := by
    unfold progressCooldownTill
    rw [hp]
  unfold conductOperation
  rw [hc, if_pos hlt]

/-- The insufficient-resources path of `conductOperation`. -/
theorem conductOperation_insufficient_eq {env : Env} {s : State}
    {op : Operation} {now m : ℚ} {s' : State}
    (hcool : progressCooldownTill s op.id ≤ now)
    (hm : getMultipliers env s .operationCostReduction = .ok m)
    (hsp : spendResourcesByCost s op.cost
      (env.operationScaleFactor op.rarity * (1 / max m (1 / 1000))) =
      .ok (false, s')) :
    conductOperation env s op now =
      .error (.insufficientResources op.id, s') ∧ s' = s := by
  have hsp' : spendResourcesByCost s op.cost
      (finalCostMultiplier env op m) = .ok (false, s') := hsp
  refine ⟨?_, spendResourcesByCost_ok_false hsp⟩
  unfold conductOperation
  rw [if_neg (not_lt.mpr hcool), hm, bindM_ok_apply, hsp', bindB_ok_apply,
    if_neg (by simp)]

/-- The successful path of `conductOperation` with non-zero duration. -/
theorem conductOperation_success_eq {env : Env} {s : State}
    {op : Operation} {now m durRed : ℚ} {s' : State}
    (hcool : progressCooldownTill s op.id ≤ now)
    (hm : getMultipliers env s .operationCostReduction = .ok m)
    (hsp : spendResourcesByCost s op.cost (finalCostMultiplier env op m) =
      .ok (true, s'))
    (hdr : getMultipliers env s' .operationDurationReduction = .ok durRed)
    (hne : finalDuration op durRed ≠ 0) :
    conductOperation env s op now =
      .ok (finalDuration op durRed,
        conductProgress s' op now (finalDuration op durRed)) := by
  unfold conductOperation
  rw [if_neg (not_lt.mpr hcool), hm, bindM_ok_apply, hsp, bindB_ok_apply,
    if_pos rfl, hdr, bindM_ok_apply, if_neg hne]

/-- The `!progressEntry?.claimableAt` guard of `claimOperation`: no
progress entry. -/
theorem claimOperation_none_eq {env : Env} {s : State} {op : Operation}
    {now : ℚ} (hp : s.operationsProgress op.id = none) :
    claimOperation env s op now = .error (.couldNotBeClaimed op.id, s) := by
  unfold claimOperation
  rw [hp]

/-- The `!progressEntry?.claimableAt` guard of `claimOperation`:
`claimableAt == 0` (falsy). -/
theorem claimOperation_zero_eq {env : Env} {s : State} {op : Operation}
    {now : ℚ} {p : Progress} (hp : s.operationsProgress op.id = some p)
    (hz : p.claimableAt = 0) :
    claimOperation env s op now = .error (.couldNotBeClaimed op.id, s) := by
  simp only [claimOperation, hp]
  rw [if_pos hz]

/-- The not-yet-claimable branch of `claimOperation`. -/
theorem claimOperation_inProgress_eq {env : Env} {s : State}
    {op : Operation} {now : ℚ} {p : Progress}
    (hp : s.operationsProgress op.id = some p) (h0 : 0 < p.claimableAt)
    (hn : now < p.claimableAt) :
    claimOperation env s op now = .error (.notYetClaimable op.id, s) := by
  have hph : getOperationPhase (some p) now = .inProgress := by
    simp only [getOperationPhase]
    rw [if_pos h0, if_pos hn]
  simp only [claimOperation, hp]
  rw [if_neg (ne_of_gt h0), hph]

theorem scenario_hcool :
    progressCooldownTill scenarioBalance scenarioOp.id ≤ 1000 := by
  norm_num [progressCooldownTill, scenarioBalance, initialState]

theorem scenario_hm :
    getMultipliers envId scenarioBalance .operationCostReduction = .ok 1 :=
  getMultipliers_envId rfl .operationCostReduction

theorem scenario_hsp :
    spendResourcesByCost scenarioBalance scenarioOp.cost
      (envId.operationScaleFactor scenarioOp.rarity *
        (1 / max 1 (1 / 1000))) = .ok (false, scenarioBalance) := by
  have hmax : max (1 : ℚ) (1 / 1000) = 1 := max_eq_left (by norm_num)
  apply spendResourcesByCost_false
  intro hall
  have hmem : (Resource.energy,
      ((⌈(5 : ℚ) * (envId.operationScaleFactor scenarioOp.rarity *
        (1 / max 1 (1 / 1000)))⌉ : ℤ) : ℚ)) ∈
      requiredEntries scenarioOp.cost
        (envId.operationScaleFactor scenarioOp.rarity *
          (1 / max 1 (1 / 1000))) := by
    simp [requiredEntries, costEntries, scenarioOp]
  have hceil : ((⌈(5 : ℚ) * (envId.operationScaleFactor scenarioOp.rarity *
      (1 / max 1 (1 / 1000)))⌉ : ℤ) : ℚ) = 6 := by
    rw [hmax]
    norm_num [envId, scenarioOp, configOperationScaleFactor]
  apply hall _ hmem
  rw [hceil]
  norm_num [scenarioBalance, Resources.get]

/-- C4: `conductOperation` spends with final multiplier
`scaleFactor(rarity) * (1 / max(costReduction, 0.001))`; when the atomic
spend declines, it throws insufficient-resources with the state (and in
particular the progress map) unchanged.  Scenario: balance
`{output: 10, energy: 5}`, cost `{output: 10, energy: 5}`, rarity common
(scale 1.2), all reductions at identity 1.0 → required
`{output: 12, energy: 6}` → failure with the balance unchanged. -/
theorem conduct_costMultiplier_insufficient :
    (∀ (env : Env) (s : State) (op : Operation) (now m : ℚ) (s' : State),
      progressCooldownTill s op.id ≤ now →
      getMultipliers env s .operationCostReduction = .ok m →
      spendResourcesByCost s op.cost
        (env.operationScaleFactor op.rarity * (1 / max m (1 / 1000))) =
        .ok (false, s') →
      conductOperation env s op now =
        .error (.insufficientResources op.id, s') ∧ s' = s) ∧
    ((⌈(10 : ℚ) * (configOperationScaleFactor .common *
        (1 / max 1 (1 / 1000)))⌉ : ℤ) = 12 ∧
      (⌈(5 : ℚ) * (configOperationScaleFactor .common *
        (1 / max 1 (1 / 1000)))⌉ : ℤ) = 6 ∧
      conductOperation envId scenarioBalance scenarioOp 1000 =
        .error (.insufficientResources scenarioOp.id, scenarioBalance)) := by
  have hmax : max (1 : ℚ) (1 / 1000) = 1 := max_eq_left (by norm_num)
  have hmain : ∀ (env : Env) (s : State) (op : Operation) (now m : ℚ)
      (s' : State),
      progressCooldownTill s op.id ≤ now →
      getMultipliers env s .operationCostReduction = .ok m →
      spendResourcesByCost s op.cost
        (env.operationScaleFactor op.rarity * (1 / max m (1 / 1000))) =
        .ok (false, s') →
      conductOperation env s op now =
        .error (.insufficientResources op.id, s') ∧ s' = s :=
    fun env s op now m s' h1 h2 h3 =>
      conductOperation_insufficient_eq h1 h2 h3
  refine ⟨hmain, ?_, ?_, ?_⟩
  · rw [hmax]
    norm_num [configOperationScaleFactor]
  · rw [hmax]
    norm_num [configOperationScaleFactor]
  · exact (hmain envId scenarioBalance scenarioOp 1000 1 scenarioBalance
      scenario_hcool scenario_hm scenario_hsp).1

theorem conduct_costMultiplier_insufficient_witness :
    progressCooldownTill scenarioBalance scenarioOp.id ≤ 1000 ∧
    getMultipliers envId scenarioBalance .operationCostReduction = .ok 1 ∧
    spendResourcesByCost scenarioBalance scenarioOp.cost
      (envId.operationScaleFactor scenarioOp.rarity *
        (1 / max 1 (1 / 1000))) = .ok (false, scenarioBalance) ∧
    conductOperation envId scenarioBalance scenarioOp 1000 =
      .error (.insufficientResources scenarioOp.id, scenarioBalance) :=
  ⟨scenario_hcool, scenario_hm, scenario_hsp,
    (conduct_costMultiplier_insufficient.1 envId scenarioBalance scenarioOp
      1000 1 scenarioBalance scenario_hcool scenario_hm scenario_hsp).1⟩

/-- C5 counterexample: when the operation has no progress entry (phase
Idle) the claim guard `if (!progressEntry?.claimableAt)` throws
"could not be claimed" — not the "has already been claimed" error the
claim asserts for the Idle/Cooldown phases. -/
theorem claim_alreadyClaimed_message_cex :
    claimOperation envId initialState scenarioOp 1000 =
      .error (.couldNotBeClaimed scenarioOp.id, initialState) ∧
    ∀ t, claimOperation envId initialState scenarioOp 1000 ≠
      .error (.alreadyClaimed scenarioOp.id, t) := by
  have h1 := @claimOperation_none_eq envId initialState scenarioOp 1000 rfl
  refine ⟨h1, fun t h => ?_⟩
  rw [h1] at h
  exact absurd h (by simp)

/-- C5 (amended): `claimOperation` succeeds only when the derived phase
is exactly Claimable.  InProgress fails with "not yet claimable"; with
no entry or `claimableAt == 0` (the Idle and Cooldown phases) it fails
with "could not be claimed" — the dedicated already-claimed branch is
unreachable for those states; on every such failure no state is
mutated. -/
theorem claimOperation_phase_guards :
    ∀ (env : Env) (s : State) (op : Operation) (now : ℚ),
      (s.operationsProgress op.id = none →
        claimOperation env s op now =
          .error (.couldNotBeClaimed op.id, s)) ∧
      (∀ p, s.operationsProgress op.id = some p → p.claimableAt = 0 →
        claimOperation env s op now =
          .error (.couldNotBeClaimed op.id, s)) ∧
      (∀ p, s.operationsProgress op.id = some p → 0 < p.claimableAt →
        now < p.claimableAt →
        claimOperation env s op now =
          .error (.notYetClaimable op.id, s)) ∧
      (∀ t, claimOperation env s op now = .ok t →
        getOperationPhase (s.operationsProgress op.id) now = .claimable) := by
  intro env s op now
  refine ⟨fun hp => claimOperation_none_eq hp,
    fun p hp hz => claimOperation_zero_eq hp hz,
    fun p hp h0 hn => claimOperation_inProgress_eq hp h0 hn, ?_⟩
  intro t h
  unfold claimOperation at h
  split at h
  · exact absurd h (by simp)
  next p heq =>
    rw [heq]
    split at h
    · exact absurd h (by simp)
    · split at h
      next hph => exact absurd h (by simp)
      next hph => exact absurd h (by simp)
      next hph => exact absurd h (by simp)
      next hph => exact hph

theorem claimOperation_phase_guards_witness :
    initialState.operationsProgress scenarioOp.id = none ∧
    claimOperation envId initialState scenarioOp 1000 =
      .error (.couldNotBeClaimed scenarioOp.id, initialState) :=
  ⟨rfl, (claimOperation_phase_guards envId initialState scenarioOp 1000).1
    rfl⟩

/-- A state whose only progress entry is in the InProgress phase at
`now = 1000`. -/
def inProgressState : State :=
  { initialState with operationsProgress := fun i =>
      if i = scenarioOp.id then some ⟨3000, 6000⟩ else none }

/-- C10: `conductOperation` throws the cooldown error whenever the
operation's entry has `cooldownTill > now` — not only in the Cooldown
phase; in particular every operation in the InProgress phase
(`claimableAt > now`, which with the `claimableAt ≤ cooldownTill`
invariant gives `cooldownTill > now`) is rejected before any resource
is spent, with the whole state (counters and progress entry)
unchanged. -/
theorem conduct_blocked_by_cooldownTill :
    (∀ (env : Env) (s : State) (op : Operation) (now : ℚ) (p : Progress),
      s.operationsProgress op.id = some p → now < p.cooldownTill →
      conductOperation env s op now =
        .error (.onCooldown ⌈(p.cooldownTill - now) / 1000⌉, s)) ∧
    (∀ (env : Env) (s : State) (op : Operation) (now : ℚ) (p : Progress),
      s.operationsProgress op.id = some p → 0 < p.claimableAt →
      now < p.claimableAt → p.claimableAt ≤ p.cooldownTill →
      conductOperation env s op now =
        .error (.onCooldown ⌈(p.cooldownTill - now) / 1000⌉, s)) :=
  ⟨fun env s op now p hp hlt => conductOperation_onCooldown_eq hp hlt,
    fun env s op now p hp h0 hn hle =>
      conductOperation_onCooldown_eq hp (lt_of_lt_of_le hn hle)⟩

theorem conduct_blocked_by_cooldownTill_witness :
    inProgressState.operationsProgress scenarioOp.id =
      some ⟨3000, 6000⟩ ∧
    (0 : ℚ) < 3000 ∧ (1000 : ℚ) < 3000 ∧ (3000 : ℚ) ≤ 6000 ∧
    conductOperation envId inProgressState scenarioOp 1000 =
      .error (.onCooldown ⌈((6000 : ℚ) - 1000) / 1000⌉, inProgressState) := by
  have hp : inProgressState.operationsProgress scenarioOp.id =
      some ⟨3000, 6000⟩ := by
    simp [inProgressState]
  exact ⟨hp, by norm_num, by norm_num, by norm_num,
    conduct_blocked_by_cooldownTill.2 envId inProgressState scenarioOp 1000
      ⟨3000, 6000⟩ hp (by norm_num) (by norm_num) (by norm_num)⟩

/-- C6: every reachable progress entry satisfies
`claimableAt ≤ cooldownTill`; moreover the entry written by a conduct
has exactly `claimableAt = now + duration·1000` and
`cooldownTill = now + (duration + op.cooldown)·1000`, which are ordered
because `op.cooldown ≥ 0`. -/
theorem progressEntry_cooldown_ge_claimable :
    (∀ (env : Env) (s : State), Reachable env s →
      ∀ oid p, s.operationsProgress oid = some p →
        p.claimableAt ≤ p.cooldownTill) ∧
    (∀ (s' : State) (op : Operation) (now duration : ℚ),
      0 ≤ op.cooldown →
      (conductProgress s' op now duration).operationsProgress op.id =
        some ⟨now + duration * 1000,
              now + (duration + op.cooldown) * 1000⟩ ∧
      now + duration * 1000 ≤ now + (duration + op.cooldown) * 1000) := by
  constructor
  · intro env s h oid p hp
    exact ((reachable_wf h).prog oid p hp).2
  · intro s' op now duration hc
    constructor
    · simp [conductProgress, markDirty]
    · nlinarith

/-- The chain initial → +100 energy → +100 output used by witnesses. -/
def sA : State := addedState initialState .energy 100

def sB : State := addedState sA .output 100

theorem isNNInt_100 : IsNNInt (100 : ℚ) :=
  isNNInt_of_int _ 100 (by norm_num) (by norm_num)

theorem sB_resources : sB.resources = ⟨100, 100, 0, 0⟩ := by
  simp [sB, sA, addedState, markDirty, initialState, Resources.set,
    Resources.get]

theorem maxOne : max (1 : ℚ) (1 / 1000) = 1 := max_eq_left (by norm_num)

theorem finalCost_envId_scenario :
    finalCostMultiplier envId scenarioOp 1 = 6 / 5 := by
  rw [finalCostMultiplier, maxOne]
  norm_num [envId, scenarioOp, configOperationScaleFactor]

theorem finalDuration_scenario : finalDuration scenarioOp 1 = 1 := by
  rw [finalDuration, maxOne]
  norm_num [scenarioOp]

/-- The state after the scenario conduct's successful spend from `sB`. -/
def sBspent : State :=
  spendResourcesByCostState sB scenarioOp.cost
    (finalCostMultiplier envId scenarioOp 1)

theorem sB_spend_ok :
    spendResourcesByCost sB scenarioOp.cost
        (finalCostMultiplier envId scenarioOp 1) = .ok (true, sBspent) ∧
      sBspent.activeBonuses = [] := by
  have hcost : scenarioOp.cost = ⟨some 5, some 10, none, none⟩ := rfl
  have haff : ∀ ra ∈ requiredEntries scenarioOp.cost
      (finalCostMultiplier envId scenarioOp 1),
      ¬(sB.resources.get ra.1 < ra.2) := by
    intro ra hra
    rw [hcost] at hra
    simp only [requiredEntries, costEntries] at hra
    simp at hra
    rcases hra with h | h <;> rw [h] <;> simp only [] <;>
      rw [finalCost_envId_scenario, sB_resources] <;>
      simp [Resources.get] <;> norm_num
  have hint : ∀ ra ∈ requiredEntries scenarioOp.cost
      (finalCostMultiplier envId scenarioOp 1), IsNNInt ra.2 := by
    apply requiredEntries_nnint
    · rw [finalCost_envId_scenario]
      norm_num
    · intro r v h
      exact (scenarioOp_wf.2.2.1 r v h).1
  obtain ⟨s', heq, -, -, -, hbon, -, -⟩ :=
    spendResourcesByCost_true haff hint
  have hstate : sBspent = s' := by
    unfold sBspent spendResourcesByCostState
    rw [heq]
  rw [← hstate] at heq hbon
  exact ⟨heq, by rw [hbon]; rfl⟩

/-- The reachable state holding the entry written by the scenario
conduct. -/
def sC : State :=
  conductProgress sBspent scenarioOp 1000 (finalDuration scenarioOp 1)

theorem sB_conduct_ok :
    conductOperation envId sB scenarioOp 1000 =
      .ok (finalDuration scenarioOp 1, sC) := by
  apply conductOperation_success_eq
  · norm_num [progressCooldownTill, sB, sA, addedState, markDirty,
      initialState]
  · exact getMultipliers_envId rfl _
  · exact sB_spend_ok.1
  · exact getMultipliers_envId sB_spend_ok.2 _
  · rw [finalDuration_scenario]
    norm_num

theorem sC_reachable : Reachable envId sC := by
  have stepA : Step envId initialState sA := by
    have h := @Step.add envId initialState Resource.energy 100
    rw [addResourceState_valid isNNInt_100] at h
    exact h
  have stepB : Step envId sA sB := by
    have h := @Step.add envId sA Resource.output 100
    rw [addResourceState_valid isNNInt_100] at h
    exact h
  have stepC : Step envId sB sC := by
    have h := @Step.conduct envId sB scenarioOp 1000 scenarioOp_wf
      (by norm_num)
    have heq : conductOperationState envId sB scenarioOp 1000 = sC := by
      unfold conductOperationState
      rw [sB_conduct_ok]
    rw [heq] at h
    exact h
  exact Relation.ReflTransGen.tail
    (Relation.ReflTransGen.tail
      (Relation.ReflTransGen.tail Relation.ReflTransGen.refl stepA) stepB)
    stepC

theorem sC_entry :
    sC.operationsProgress scenarioOp.id = some ⟨2000, 2000⟩ := by
  have h : sC.operationsProgress scenarioOp.id =
      some ⟨1000 + finalDuration scenarioOp 1 * 1000,
            1000 + (finalDuration scenarioOp 1 + scenarioOp.cooldown)
              * 1000⟩ := by
    simp [sC, conductProgress, markDirty]
  rw [h, finalDuration_scenario]
  norm_num [scenarioOp]

theorem progressEntry_cooldown_ge_claimable_witness :
    Reachable envId sC ∧
    sC.operationsProgress scenarioOp.id = some ⟨2000, 2000⟩ ∧
    (⟨2000, 2000⟩ : Progress).claimableAt ≤
      (⟨2000, 2000⟩ : Progress).cooldownTill :=
  ⟨sC_reachable, sC_entry,
    progressEntry_cooldown_ge_claimable.1 envId sC sC_reachable
      scenarioOp.id ⟨2000, 2000⟩ sC_entry⟩

theorem double_set_syncPhase (s : State) (a b : SyncPhase) :
    ({ { s with syncPhase := a } with syncPhase := b } : State) =
      { s with syncPhase := b } := rfl

/-- C7: `load()` called with the gate idle is a no-op — returning
`undefined`, propagating no exception, writing nothing to storage,
leaving every sub-store and the dirty set untouched, and returning the
gate to idle — in each of the three rejection cases: a dirty flag is
set, the storage key is absent, or the stored payload fails
`gameSaveSchema` validation. -/
theorem load_rejected_noop :
    ∀ w : World, w.state.syncPhase = .idle →
      (isDirty w.state = true ∨ w.storage = none ∨
        ∃ raw, w.storage = some raw ∧
          gameSaveParse raw = .error .validation) →
      syncLoad w = .ok (none, w) := by
  intro w hidle hcase
  have hfix : ({ w with state :=
      { { w.state with syncPhase := SyncPhase.loading } with
        syncPhase := SyncPhase.idle } } : World) = w := by
    rw [double_set_syncPhase, setIdle_eq_self hidle]
  unfold syncLoad
  rw [if_neg (by simp [hidle])]
  rcases hcase with hd | hst | ⟨raw, hst, hpr⟩
  · cases hst2 : w.storage with
    | none =>
        unfold loadAttempt
        exact congrArg (fun x => Except.ok (none, x)) hfix
    | some raw =>
        simp only [loadAttempt]
        cases hpr2 : gameSaveParse raw with
        | error e =>
            exact congrArg (fun x => Except.ok (none, x)) hfix
        | ok snapshot =>
            have herr := @syncLoadSnapshot_dirty
              { w.state with syncPhase := SyncPhase.loading }
              snapshot
              (show isDirty { w.state with syncPhase := SyncPhase.loading }
                  = true from hd)
            split
            next a heq => exact absurd heq (by simp)
            next s0 heq =>
              injection heq with heq
              subst heq
              split
              next fst s' heq2 =>
                have h2 := Eq.trans herr.symm heq2
                injection h2 with h2
                rw [Prod.mk.injEq] at h2
                rw [← h2.2]
                exact congrArg (fun x => Except.ok (none, x)) hfix
              next s' heq2 =>
                exact absurd (Eq.trans herr.symm heq2) (by simp)
  · rw [hst]
    unfold loadAttempt
    exact congrArg (fun x => Except.ok (none, x)) hfix
  · rw [hst]
    simp only [loadAttempt]
    rw [hpr]
    exact congrArg (fun x => Except.ok (none, x)) hfix

theorem load_rejected_noop_witness :
    ((⟨markDirty initialState .resources, none⟩ : World).state.syncPhase
        = .idle) ∧
    isDirty (⟨markDirty initialState .resources, none⟩ : World).state
        = true ∧
    syncLoad ⟨markDirty initialState .resources, none⟩ =
      .ok (none, ⟨markDirty initialState .resources, none⟩) :=
  ⟨rfl, rfl,
    load_rejected_noop ⟨markDirty initialState .resources, none⟩ rfl
      (Or.inl rfl)⟩

/-- C8: offline reconciliation credits each steady per-round production
resource (energy, output, money) with
`rate · (min(now − savedTs, maxOfflineTime) / roundInterval) ·
offlineMultiplier` while reputation, the operations-progress map and the
active bonuses stay exactly as saved; with 10 hours elapsed, the 8-hour
cap, efficiency 0.5 and a rate of 4 per 1-second round the credited
amount is exactly 57600. -/
theorem offlineReconciliation_spec :
    ∀ (s : State) (now ts rE rO rM : ℚ),
      (applyOfflineProgress s now ts rE rO rM).resources.energy =
        s.resources.energy + rE * (min (now - ts) configMaxOfflineTime /
          configGameRoundInterval) * configOfflineMultiplier ∧
      (applyOfflineProgress s now ts rE rO rM).resources.output =
        s.resources.output + rO * (min (now - ts) configMaxOfflineTime /
          configGameRoundInterval) * configOfflineMultiplier ∧
      (applyOfflineProgress s now ts rE rO rM).resources.money =
        s.resources.money + rM * (min (now - ts) configMaxOfflineTime /
          configGameRoundInterval) * configOfflineMultiplier ∧
      (applyOfflineProgress s now ts rE rO rM).resources.reputation =
        s.resources.reputation ∧
      (applyOfflineProgress s now ts rE rO rM).operationsProgress =
        s.operationsProgress ∧
      (applyOfflineProgress s now ts rE rO rM).activeBonuses =
        s.activeBonuses ∧
      (applyOfflineProgress s now ts rE rO rM).operationsFinished =
        s.operationsFinished ∧
      (now - ts = 10 * 60 * 60 * 1000 → rE = 4 →
        (applyOfflineProgress s now ts rE rO rM).resources.energy =
          s.resources.energy + 57600) := by
  intro s now ts rE rO rM
  refine ⟨rfl, rfl, rfl, rfl, rfl, rfl, rfl, ?_⟩
  intro helapsed hrE
  have hmin : min (now - ts) configMaxOfflineTime = 28800000 := by
    rw [helapsed]
    rw [min_eq_right (by norm_num [configMaxOfflineTime])]
    norm_num [configMaxOfflineTime]
  show s.resources.energy + rE * (min (now - ts) configMaxOfflineTime /
      configGameRoundInterval) * configOfflineMultiplier =
    s.resources.energy + 57600
  rw [hmin, hrE]
  norm_num [configGameRoundInterval, configOfflineMultiplier]

theorem offlineReconciliation_spec_witness :
    ((36000000 : ℚ) - 0 = 10 * 60 * 60 * 1000) ∧ ((4 : ℚ) = 4) ∧
    (applyOfflineProgress initialState 36000000 0 4 4 4).resources.energy =
      initialState.resources.energy + 57600 :=
  ⟨by norm_num, rfl,
    (offlineReconciliation_spec initialState 36000000 0 4 4 4).2.2.2.2.2.2.2
      (by norm_num) rfl⟩

/-- C9: from any reachable state with no dirty flags (as after a save),
serializing with `getSnapshot` and loading the result back with
`loadSnapshot` succeeds and reproduces identical resource counters,
operations-progress map and completion counters; re-serializing yields
the identical snapshot for any timestamp (only the timestamp field can
differ between the two snapshots). -/
theorem snapshotRoundtrip_identity :
    ∀ (env : Env) (s : State), Reachable env s → isDirty s = false →
      ∀ t : ℚ, ∃ s',
        syncLoadSnapshot s (syncGetSnapshot s t) = .ok s' ∧
        s'.resources = s.resources ∧
        s'.operationsProgress = s.operationsProgress ∧
        s'.operationsFinished = s.operationsFinished ∧
        ∀ t2, syncGetSnapshot s' t2 = syncGetSnapshot s t2 :=
  fun _ s h hd t =>
    ⟨s, syncLoadSnapshot_roundtrip (reachable_wf h) hd, rfl, rfl, rfl,
      fun _ => rfl⟩

theorem snapshotRoundtrip_identity_witness :
    Reachable envId initialState ∧ isDirty initialState = false ∧
    (∃ s', syncLoadSnapshot initialState (syncGetSnapshot initialState 0) =
        .ok s' ∧
      s'.resources = initialState.resources ∧
      s'.operationsProgress = initialState.operationsProgress ∧
      s'.operationsFinished = initialState.operationsFinished ∧
      ∀ t2, syncGetSnapshot s' t2 = syncGetSnapshot initialState t2) :=
  ⟨Relation.ReflTransGen.refl, rfl,
    snapshotRoundtrip_identity envId initialState
      Relation.ReflTransGen.refl rfl 0⟩

end ClickerGame
